import Mathlib

/-!
Verification of the Verilog patch-template repair pipeline
(`patch_templates/`: assign, case, if-else, always, generate patchers and the
`SyntaxErrorPatcher` orchestrator).  Each Python method is translated into an
executable Lean definition over `List Char` / `String`; Python regular
expressions are modelled by explicit character scanners with the same
leftmost-match semantics.  Theorems about the pipeline claims follow the
definitions.
-/

/-- Python `\s` character class (ASCII): space, tab, newline, CR, FF, VT. -/
def isPySpace (c : Char) : Bool :=
  c = ' ' || c = '\t' || c = '\n' || c = '\r' || c = '\x0b' || c = '\x0c'

/-- Python `\w` character class (ASCII): letters, digits, underscore. -/
def isWordChar (c : Char) : Bool :=
  ('a' ≤ c && c ≤ 'z') || ('A' ≤ c && c ≤ 'Z') || ('0' ≤ c && c ≤ '9') || c = '_'

/-- ASCII digit test, Python `\d`. -/
def isDigitChar (c : Char) : Bool := '0' ≤ c && c ≤ '9'

/-- Python `str.lstrip()` on a character list. -/
def lstripL (l : List Char) : List Char := l.dropWhile isPySpace

/-- Python `str.rstrip()` on a character list. -/
def rstripL (l : List Char) : List Char := (l.reverse.dropWhile isPySpace).reverse

/-- Python `str.strip()` on a character list. -/
def stripL (l : List Char) : List Char := rstripL (lstripL l)

/-- Occurrences of a character in a list (Python `str.count`). -/
def countChar (c : Char) (l : List Char) : Nat := l.count c

/-- Substring containment (Python `in` on strings). -/
def containsSub (pat : List Char) : List Char → Bool
  | [] => pat.isPrefixOf []
  | c :: rest => pat.isPrefixOf (c :: rest) || containsSub pat rest

/-- Python `str.startswith`. -/
def startsWithL (pat l : List Char) : Bool := pat.isPrefixOf l

/-- Python `str.endswith`. -/
def endsWithL (pat l : List Char) : Bool := pat.isSuffixOf l

/-- ASCII `str.lower()`. -/
def lowerL (l : List Char) : List Char :=
  l.map fun c => if 'A' ≤ c && c ≤ 'Z' then Char.ofNat (c.toNat + 32) else c

/-- String wrappers. -/
def pyStrip (s : String) : String := ⟨stripL s.data⟩
def pyRstrip (s : String) : String := ⟨rstripL s.data⟩
def pyLower (s : String) : String := ⟨lowerL s.data⟩
def strContains (pat s : String) : Bool := containsSub pat.data s.data
def strStarts (pat s : String) : Bool := startsWithL pat.data s.data
def strEnds (pat s : String) : Bool := endsWithL pat.data s.data
def countCharStr (c : Char) (s : String) : Nat := countChar c s.data

/-- Python `str.replace(pat, rep)` (all occurrences, left to right); fuel-driven
scanner, fuel is instantiated with the string length so it never runs out. -/
def replaceAllGo (pat rep : List Char) : Nat → List Char → List Char
  | _, [] => []
  | 0, l => l
  | fuel + 1, c :: rest =>
    if pat ≠ [] && pat.isPrefixOf (c :: rest) then
      rep ++ replaceAllGo pat rep fuel ((c :: rest).drop pat.length)
    else
      c :: replaceAllGo pat rep fuel rest

def replaceAll (pat rep s : String) : String :=
  ⟨replaceAllGo pat.data rep.data s.data.length s.data⟩

/-- Leading-whitespace prefix computed as `line[:len(line)-len(line.lstrip())]`
(used by `AlwaysBlockPatcher._get_indent` and `SyntaxErrorPatcher._get_indent`). -/
def getIndentWs (s : String) : String := ⟨s.data.takeWhile isPySpace⟩

/-- Leading space/tab prefix (the explicit loops in
`CaseStatementPatcher._get_indent` and `IfElsePatcher._get_indent`). -/
def getIndentST (s : String) : String :=
  ⟨s.data.takeWhile (fun c => c = ' ' || c = '\t')⟩

/-- Word-boundary at a split point: position follows no word character. -/
def boundaryBefore (before : List Char) : Bool :=
  match before with
  | [] => true
  | c :: _ => !isWordChar c

/-- Generic `re.search`: does some split of `l` satisfy the matcher (which
receives the reversed prefix, for boundary checks, and the suffix)? -/
def searchAt (m : List Char → List Char → Bool) : List Char → List Char → Bool
  | revPre, [] => m revPre []
  | revPre, c :: rest => m revPre (c :: rest) || searchAt m (c :: revPre) rest

def searchL (m : List Char → List Char → Bool) (l : List Char) : Bool :=
  match l with
  | [] => m [] []
  | _ => searchAt m [] l

/-- After a literal keyword: skip `\s*` and require a given character. -/
def wsThenChar (c : Char) (l : List Char) : Bool :=
  match l.dropWhile isPySpace with
  | d :: _ => d = c
  | [] => false

/-- After skipping `\s*`, require end of input (`\s*$`). -/
def wsThenEnd (l : List Char) : Bool := l.dropWhile isPySpace = []

/-- `re.search(r"\bcase\s*\(", line)`. -/
def caseOpenMatch (s : String) : Bool :=
  searchL
    (fun revPre suf =>
      boundaryBefore revPre && startsWithL "case".data suf &&
        wsThenChar '(' (suf.drop 4))
    s.data

/-! ### AssignStatementPatcher -/

/-- `_is_assign_start`. -/
def isAssignStart (lc : String) : Bool :=
  strStarts "assign " lc && strContains "=" lc

/-- `_is_new_statement_start`. -/
def isNewStatementStart (lc : String) : Bool :=
  ["assign ", "always", "wire ", "reg ", "input ", "output ",
   "module ", "endmodule", "begin", "end", "if ", "case "].any
    (fun kw => strStarts kw lc)

/-- `_is_continuation_line`: `re.match` of the operator patterns
`^\s*\|\s*`, ..., `^\s*==\s*`, `^\s*!=\s*`. -/
def isContinuationLine (lc : String) : Bool :=
  match lc.data.dropWhile isPySpace with
  | [] => false
  | c :: rest =>
    c = '|' || c = '&' || c = '^' || c = '+' || c = '-' || c = '?' || c = ':' ||
    (c = '=' && startsWithL "=".data rest) || (c = '!' && startsWithL "=".data rest)

/-- Inner loop of `_collect_complete_assign`: walk the following lines,
skipping blanks/comments, stopping before a fresh statement, absorbing up to
the first `;`-terminated line.  Returns collected (stripped) parts and the
number of consumed lines. -/
def collectGo : List String → List String × Nat
  | [] => ([], 0)
  | l :: rest =>
    let nl := pyStrip l
    if nl = "" || strStarts "//" nl then
      let (ps, n) := collectGo rest
      (ps, n + 1)
    else if isNewStatementStart nl && !isContinuationLine nl then ([], 0)
    else if strEnds ";" nl then ([nl], 1)
    else
      let (ps, n) := collectGo rest
      (nl :: ps, n + 1)

/-- `' '.join(parts)`. -/
def joinSpace : List String → String
  | [] => ""
  | [p] => p
  | p :: rest => p ++ " " ++ joinSpace rest

/-- `_collect_complete_assign` (the suffix of the line list starting at the
assign line is passed as `line :: rest`). -/
def collectCompleteAssign (line : String) (rest : List String) : String × Nat :=
  let first := pyStrip line
  let needsCont := !strEnds ";" first ||
    (strEnds "|" first || strEnds "&" first || strEnds "^" first ||
     strEnds "+" first || strEnds "-" first || strEnds "?" first ||
     strEnds ":" first || strEnds "=" first)
  if needsCont then
    let (ps, n) := collectGo rest
    (joinSpace (first :: ps), 1 + n)
  else (first, 1)

/-- First index of a character in a list, if any. -/
def firstIdxOf (c : Char) : List Char → Option Nat
  | [] => none
  | d :: rest =>
    if d = c then some 0 else (firstIdxOf c rest).map (· + 1)

/-- All start indices of a literal substring, ascending. -/
def occurrencesOf (pat : List Char) : List Char → List Nat
  | [] => []
  | c :: rest =>
    let tailOcc := (occurrencesOf pat rest).map (· + 1)
    if pat.isPrefixOf (c :: rest) then 0 :: tailOcc else tailOcc

/-- Validity of a second-`assign` occurrence at index `a` of `U` for the
pattern `...=\s*[^;]+?\s+(assign\s+.*)`: preceded by whitespace, no `;`
before it, and itself followed by at least one whitespace character. -/
def splitSndOk (U : List Char) (a : Nat) : Bool :=
  decide (2 ≤ a) && (match U.get? (a - 1) with | some c => isPySpace c | none => false) &&
  ((U.take a).all fun c => c ≠ ';') &&
  (match U.get? (a + 6) with | some c => isPySpace c | none => false)

/-- Chosen second-`assign` index for `_split_multiple_assigns`, reproducing
the greedy `\s*` / lazy `[^;]+?` backtracking order: the smallest valid
occurrence at distance `≥ w + 2` past the first `=` (where `w` is the length
of the whitespace run after `=`), with a fallback to the occurrence directly
after that whitespace run. -/
def splitSndIdx (U : List Char) : Option Nat :=
  let w := (U.takeWhile isPySpace).length
  let occs := occurrencesOf "assign".data U
  match occs.filter (fun a => decide (w + 2 ≤ a) && splitSndOk U a) with
  | a :: _ => some a
  | [] =>
    if 2 ≤ w && occs.contains w && splitSndOk U w then some w else none

/-- `_split_multiple_assigns`: `re.search(r'(assign\s+[^=]+=\s*[^;]+?)\s+(assign\s+.*)')`
on the (already collected, single-line) statement; on a match the statement is
split at the second `assign` and the first part is `;`-terminated. -/
def splitMultipleAssigns (line : String) : List String :=
  let current := stripL line.data
  let starts := occurrencesOf "assign".data current
  let tryStart : Nat → Option (String × String) := fun s =>
    let T := current.drop (s + 6)
    match T with
    | [] => none
    | t0 :: _ =>
      if isPySpace t0 then
        match firstIdxOf '=' T with
        | some m =>
          if 2 ≤ m then
            let U := T.drop (m + 1)
            match splitSndIdx U with
            | some a =>
              let g1 := ⟨stripL ((current.drop s).take (6 + m + 1 + a))⟩
              let g2 : String := ⟨stripL ((current.drop (s + 6 + m + 1 + a)).takeWhile (· ≠ '\n'))⟩
              some (g1, g2)
            | none => none
          else none
        | none => none
      else none
  match starts.findSome? tryStart with
  | some (g1, g2) =>
    let g1' := if !strEnds ";" g1 then g1 ++ ";" else g1
    [g1', g2]
  | none => [line]

/-- Try the tail of `\?\s*else\s+if\s*\([^)]+\)\s*[^;:]+;\s*:` right after a
`?`; on success return the rest of the input after the match. -/
def tryComplexTernaryTail (l : List Char) : Option (List Char) := do
  let r1 := l.dropWhile isPySpace
  guard (startsWithL "else".data r1)
  let r2 := r1.drop 4
  let ws := r2.takeWhile isPySpace
  guard (ws ≠ [])
  let r3 := r2.drop ws.length
  guard (startsWithL "if".data r3)
  let r4 := (r3.drop 2).dropWhile isPySpace
  guard (startsWithL "(".data r4)
  let inner := (r4.drop 1).takeWhile (· ≠ ')')
  guard (inner ≠ [])
  let r5 := r4.drop (1 + inner.length)
  guard (startsWithL ")".data r5)
  let seg := (r5.drop 1).takeWhile (fun c => c ≠ ';' && c ≠ ':')
  guard (seg ≠ [])
  let r6 := r5.drop (1 + seg.length)
  guard (startsWithL ";".data r6)
  let r7 := (r6.drop 1).dropWhile isPySpace
  guard (startsWithL ":".data r7)
  pure (r7.drop 1)

/-- `_fix_complex_ternary`: `re.sub` of the malformed-ternary pattern by
`" ? 1'b0 :"` (fuel-driven scan, fuel = input length). -/
def fixComplexTernaryGo : Nat → List Char → List Char
  | _, [] => []
  | 0, l => l
  | fuel + 1, c :: rest =>
    if c = '?' then
      match tryComplexTernaryTail rest with
      | some remaining => " ? 1'b0 :".data ++ fixComplexTernaryGo fuel remaining
      | none => c :: fixComplexTernaryGo fuel rest
    else c :: fixComplexTernaryGo fuel rest

def fixComplexTernaryL (l : List Char) : List Char := fixComplexTernaryGo l.length l

/-- `re.sub(r'<\s*=', '<=', ...)`: state machine, `some pend` holds a pending
`<` and the whitespace seen after it. -/
def subLtEqCore : Option (List Char) → List Char → List Char
  | none, [] => []
  | some pend, [] => '<' :: pend.reverse
  | none, c :: rest =>
    if c = '<' then subLtEqCore (some []) rest else c :: subLtEqCore none rest
  | some pend, c :: rest =>
    if c = '=' then '<' :: '=' :: subLtEqCore none rest
    else if isPySpace c then subLtEqCore (some (c :: pend)) rest
    else if c = '<' then '<' :: pend.reverse ++ subLtEqCore (some []) rest
    else '<' :: pend.reverse ++ c :: subLtEqCore none rest

def subLtEq (l : List Char) : List Char := subLtEqCore none l

/-- `_fix_ternary_operator`: append a `" : 1'b0"` default branch for every
unmatched `?`. -/
def fixTernaryOperator (l : List Char) : List Char :=
  let q := countChar '?' l
  let c := countChar ':' l
  if c < q then l ++ (List.replicate (q - c) " : 1'b0".data).flatten else l

/-- `re.sub(r'\s+', ' ', ...)`: collapse every whitespace run to one space. -/
def collapseWs : List Char → List Char
  | [] => []
  | a :: rest =>
    if isPySpace a then
      match rest with
      | [] => [' ']
      | b :: _ => if isPySpace b then collapseWs rest else ' ' :: collapseWs rest
    else a :: collapseWs rest

/-- `re.sub(r'\s*T\s*', ' T ', ...)` for a single character `T`: `drop` is
true while absorbing the whitespace already consumed by a previous match's
trailing `\s*`; `pend` buffers whitespace that may belong to a later match's
leading `\s*`. -/
def subACCore (t : Char) : Bool → List Char → List Char → List Char
  | dropMode, pend, [] => if dropMode then [] else pend.reverse
  | dropMode, pend, c :: rest =>
    if c = t then ' ' :: t :: ' ' :: subACCore t true [] rest
    else if isPySpace c then subACCore t dropMode (c :: pend) rest
    else (if dropMode then [] else pend.reverse) ++ c :: subACCore t false [] rest

def subAroundChar (t : Char) (l : List Char) : List Char := subACCore t false [] l

/-- `re.sub(r'=\s+=', '==', ...)`: `some pend` holds a pending `=` and the
(possibly empty) whitespace seen after it. -/
def subEqEqCore : Option (List Char) → List Char → List Char
  | none, [] => []
  | some pend, [] => '=' :: pend.reverse
  | none, c :: rest =>
    if c = '=' then subEqEqCore (some []) rest else c :: subEqEqCore none rest
  | some pend, c :: rest =>
    if c = '=' then
      if pend.isEmpty then '=' :: subEqEqCore (some []) rest
      else '=' :: '=' :: subEqEqCore none rest
    else if isPySpace c then subEqEqCore (some (c :: pend)) rest
    else '=' :: pend.reverse ++ c :: subEqEqCore none rest

def subEqEq (l : List Char) : List Char := subEqEqCore none l

/-- `_fix_assign_statement` on a character list. -/
def fixAssignStatementL (l : List Char) : List Char :=
  if stripL l = [] then l
  else
    let f1 := fixComplexTernaryL l
    let f2 := subLtEq f1
    let f3 := fixTernaryOperator f2
    let f4 := if !endsWithL ";".data (stripL f3) then rstripL f3 ++ ";".data else f3
    let f5 := collapseWs f4
    let f6 := subAroundChar '=' f5
    let f7 := subAroundChar '?' f6
    let f8 := subAroundChar ':' f7
    subEqEq f8

def fixAssignStatement (s : String) : String := ⟨fixAssignStatementL s.data⟩

/-- `_is_orphan_ternary_part`. -/
def isOrphanTernaryPart (lc : String) : Bool :=
  match lc.data.dropWhile isPySpace with
  | [] => false
  | c :: _ => c = '?' || c = ':' || c = '|' || c = '&' || c = '^'

/-- `_can_merge_with_previous`. -/
def canMergeWithPrevious (prev curr : String) : Bool :=
  let pc := pyStrip prev
  let cc := pyStrip curr
  if strEnds "?" pc || strEnds "&" pc || strEnds "|" pc || strEnds "^" pc ||
      strEnds "+" pc || strEnds "-" pc ||
      strStarts "?" cc || strStarts ":" cc || strStarts "&" cc ||
      strStarts "|" cc || strStarts "^" cc || strStarts "+" cc || strStarts "-" cc then
    true
  else if strStarts "assign " pc && !strEnds ";" pc then true
  else false

/-- `_merge_ternary_lines`. -/
def mergeTernaryLines (prev curr : String) : String :=
  pyRstrip prev ++ " " ++ pyStrip curr

/-- `_is_incomplete_assignment`: `re.search` of `=\s*$`, `<=\s*$`, `\?\s*$`,
`:\s*$` — i.e. the last non-whitespace character(s). -/
def isIncompleteAssignment (lc : String) : Bool :=
  let r := rstripL lc.data
  endsWithL "=".data r || endsWithL "<=".data r ||
    endsWithL "?".data r || endsWithL ":".data r

/-- `_fix_incomplete_assignment`. -/
def fixIncompleteAssignment (line : String) : String :=
  let lc := pyStrip line
  if strEnds "=" lc then pyRstrip line ++ " 1'b0;"
  else if strEnds "<=" lc then pyRstrip line ++ " 1'b0;"
  else if strEnds "?" lc then pyRstrip line ++ " 1'b1 : 1'b0;"
  else if strEnds ":" lc then pyRstrip line ++ " 1'b0;"
  else line

/-- Main loop of `fix_assign_statements`; returns
`(fixed_count, merged_count, output lines)`. -/
def fixAssignGo : Nat → Nat → Nat → List String → List String → Nat × Nat × List String
  | _, fixedC, mergedC, acc, [] => (fixedC, mergedC, acc.reverse)
  | 0, fixedC, mergedC, acc, rest => (fixedC, mergedC, acc.reverse ++ rest)
  | fuel + 1, fixedC, mergedC, acc, line :: rest =>
    let lc := pyStrip line
    if isAssignStart lc then
      let (complete, consumed) := collectCompleteAssign line rest
      let mergedC' := if 1 < consumed then mergedC + 1 else mergedC
      let parts := splitMultipleAssigns complete
      if 1 < parts.length then
        let outs := (parts.map fixAssignStatement).filter (fun p => pyStrip p ≠ "")
        fixAssignGo fuel (fixedC + 1) mergedC' (outs.reverse ++ acc) ((line :: rest).drop consumed)
      else
        let fixed := fixAssignStatement complete
        let fixedC' := if fixed ≠ complete then fixedC + 1 else fixedC
        let acc' := if pyStrip fixed ≠ "" then fixed :: acc else acc
        fixAssignGo fuel fixedC' mergedC' acc' ((line :: rest).drop consumed)
    else if isOrphanTernaryPart lc then
      match acc with
      | prev :: accRest =>
        if canMergeWithPrevious prev line then
          fixAssignGo fuel (fixedC + 1) mergedC (mergeTernaryLines prev line :: accRest) rest
        else fixAssignGo fuel fixedC mergedC (line :: acc) rest
      | [] => fixAssignGo fuel fixedC mergedC (line :: acc) rest
    else if isIncompleteAssignment lc then
      let fixedLine := fixIncompleteAssignment line
      let fixedC' := if fixedLine ≠ line then fixedC + 1 else fixedC
      fixAssignGo fuel fixedC' mergedC (fixedLine :: acc) rest
    else fixAssignGo fuel fixedC mergedC (line :: acc) rest

/-- `AssignStatementPatcher.fix_assign_statements` (counters are reset on
entry, mirroring the method body). -/
def fixAssignStatements (lines : List String) : Nat × Nat × List String :=
  fixAssignGo lines.length 0 0 [] lines

/-- `AssignStatementPatcher.get_summary`. -/
def getSummaryAssign (fixedC mergedC : Nat) : String :=
  if 0 < fixedC || 0 < mergedC then
    "Assign patch: fixed " ++ toString fixedC ++ " issues, merged " ++
      toString mergedC ++ " multi-line assigns"
  else "Assign patch: no changes needed"

/-! ### CaseStatementPatcher -/

/-- A line recognised as an `endcase` closer:
`check_line == "endcase" or check_line.startswith("endcase")`. -/
def isEndcaseLine (lc : String) : Bool :=
  lc = "endcase" || strStarts "endcase" lc

/-- Index of the next `endcase` line at or after `j`. -/
def findEndcaseFrom (lines : List String) (j : Nat) : Option Nat :=
  ((lines.drop j).findIdx? fun l => isEndcaseLine (pyStrip l)).map (· + j)

/-- `_identify_case_structures`: every `case(...) ... endcase` region, with a
jump past the closing line (fuel-driven, fuel = line count). -/
def identifyGo (lines : List String) : Nat → Nat → List (Nat × Nat)
  | 0, _ => []
  | fuel + 1, i =>
    if lines.length ≤ i then []
    else
      let line := pyStrip (lines.getD i "")
      if caseOpenMatch line then
        match findEndcaseFrom lines (i + 1) with
        | some e => (i, e) :: identifyGo lines fuel (e + 1)
        | none => identifyGo lines fuel (i + 1)
      else identifyGo lines fuel (i + 1)

def identifyCaseStructures (lines : List String) : List (Nat × Nat) :=
  identifyGo lines lines.length 0

/-- `re.match(r"\s*\{[^}]+\}\s*:\s*$", line)`. -/
def braceLabelMatch (s : String) : Bool :=
  match s.data.dropWhile isPySpace with
  | '{' :: r =>
    let inner := r.takeWhile (· ≠ '}')
    if inner.isEmpty then false
    else
      match r.drop inner.length with
      | '}' :: r2 =>
        (match r2.dropWhile isPySpace with
         | ':' :: r3 => (r3.dropWhile isPySpace).isEmpty
         | _ => false)
      | _ => false
  | _ => false

/-- One interior line of `_is_empty_case_structure`: does it keep the region
classified as empty? -/
def emptyLineOk (lines : List String) (i : Nat) : Bool :=
  if lines.length ≤ i then true
  else
    let line := pyStrip (lines.getD i "")
    if line = "" || strStarts "//" line then true
    else if strStarts "default:" line || braceLabelMatch line then true
    else
      !(strContains "=" line ||
        ["begin", "if", "for", "while"].any fun kw => strContains kw line)

def isEmptyGo (lines : List String) : Nat → Nat → Bool
  | _, 0 => true
  | i, n + 1 => emptyLineOk lines i && isEmptyGo lines (i + 1) n

/-- `_is_empty_case_structure` over the interior range `start+1 .. end-1`. -/
def isEmptyCaseStructure (lines : List String) (s e : Nat) : Bool :=
  isEmptyGo lines (s + 1) (e - (s + 1))

/-- `del filtered[start:end+1]`. -/
def deleteRange (l : List String) (s e : Nat) : List String :=
  l.take s ++ l.drop (e + 1)

/-- Stable descending insertion by range start
(`empty_case_ranges.sort(key=lambda x: x[0], reverse=True)`). -/
def insertDescByStart (x : Nat × Nat) : List (Nat × Nat) → List (Nat × Nat)
  | [] => [x]
  | y :: rest => if y.1 < x.1 then x :: y :: rest else y :: insertDescByStart x rest

def sortDescByStart (l : List (Nat × Nat)) : List (Nat × Nat) :=
  l.foldl (fun acc x => insertDescByStart x acc) []

/-- `_remove_empty_case_blocks`; returns `(removed_count, lines)`. -/
def removeEmptyCaseBlocks (lines : List String) : Nat × List String :=
  let structures := identifyCaseStructures lines
  let emptyRanges := structures.filter fun r => isEmptyCaseStructure lines r.1 r.2
  if emptyRanges.isEmpty then (0, lines)
  else
    let sorted := sortDescByStart emptyRanges
    (emptyRanges.length, sorted.foldl (fun acc r => deleteRange acc r.1 r.2) lines)

/-- One open `case` context on the scan stack of `_fix_missing_endcase`. -/
structure CaseCtx where
  lineNum : Nat
  indent : String
  foundEndcase : Bool
deriving Repr, DecidableEq

/-- `_check_missing_endcases`: pop open contexts whose declaration indent is
at least as deep as the current line, collecting their indents. -/
def checkMissingEndcases (lineIndent : String) :
    List CaseCtx → List String × List CaseCtx
  | [] => ([], [])
  | top :: rest =>
    if top.foundEndcase then ([], top :: rest)
    else if lineIndent.data.length ≤ top.indent.data.length then
      let (ins, st) := checkMissingEndcases lineIndent rest
      (top.indent :: ins, st)
    else ([], top :: rest)

/-- `_should_check_for_missing_endcase`. -/
def shouldCheckForMissingEndcase (lc : String) : Bool :=
  ["always", "assign", "wire ", "reg ", "input ", "output ",
   "module ", "endmodule", "begin", "end", "if ", "else"].any
    fun kw => strStarts kw lc

/-- End-of-input drain of `_fix_missing_endcase`: synthesize an `endcase` for
every still-open context. -/
def drainStack : List CaseCtx → Nat × List String
  | [] => (0, [])
  | c :: rest =>
    let (n, ls) := drainStack rest
    if c.foundEndcase then (n, ls) else (n + 1, (c.indent ++ "endcase") :: ls)

/-- Pop the top of the case stack (the effect of finding an `endcase` line). -/
def popTop : List CaseCtx → List CaseCtx
  | [] => []
  | _ :: rest => rest

/-- Main loop of `_fix_missing_endcase`; returns `(inserted_count, lines)`. -/
def fixMEGo : Nat → List CaseCtx → List String → Nat × List String
  | _, stack, [] => drainStack stack
  | idx, stack, line :: rest =>
    let lc := pyStrip line
    if caseOpenMatch lc then
      let (n, ls) := fixMEGo (idx + 1) (⟨idx, getIndentST line, false⟩ :: stack) rest
      (n, line :: ls)
    else if isEndcaseLine lc then
      let (n, ls) := fixMEGo (idx + 1) (popTop stack) rest
      (n, line :: ls)
    else if shouldCheckForMissingEndcase lc && !stack.isEmpty then
      let (ins, stack') := checkMissingEndcases (getIndentST line) stack
      let (n, ls) := fixMEGo (idx + 1) stack' rest
      (ins.length + n, ins.map (· ++ "endcase") ++ line :: ls)
    else
      let (n, ls) := fixMEGo (idx + 1) stack rest
      (n, line :: ls)

def fixMissingEndcase (lines : List String) : Nat × List String :=
  fixMEGo 0 [] lines

/-- `CaseStatementPatcher.fix_case_statements`; returns
`(removed_count, fixed_count, lines)`. -/
def fixCaseStatements (lines : List String) : Nat × Nat × List String :=
  let (removed, cleaned) := removeEmptyCaseBlocks lines
  let (inserted, fixed) := fixMissingEndcase cleaned
  (removed, inserted, fixed)

/-- `CaseStatementPatcher.get_summary`. -/
def getSummaryCase (removed inserted : Nat) : String :=
  let parts :=
    (if 0 < removed then ["removed " ++ toString removed ++ " empty case blocks"] else []) ++
    (if 0 < inserted then ["inserted " ++ toString inserted ++ " missing 'endcase'"] else [])
  match parts with
  | [] => "Case patch: no changes needed"
  | [p] => "Case patch: " ++ p
  | p :: q :: _ => "Case patch: " ++ p ++ ", " ++ q

/-- A line counted as a `case` opening (textual, on trimmed content). -/
def isCaseOpenLine (l : String) : Bool := caseOpenMatch (pyStrip l)

/-- A line counted as an `endcase` closing (textual, on trimmed content). -/
def isEndcaseCloseLine (l : String) : Bool := isEndcaseLine (pyStrip l)

def countCaseOpens (ls : List String) : Nat := ls.countP isCaseOpenLine

def countEndcloses (ls : List String) : Nat := ls.countP isEndcaseCloseLine

/-! ### IfElsePatcher -/

/-- `re.search(r"\bif\s*\(", ...)`. -/
def ifSearch (s : String) : Bool :=
  searchL
    (fun revPre suf =>
      boundaryBefore revPre && startsWithL "if".data suf && wsThenChar '(' (suf.drop 2))
    s.data

/-- `_is_if_statement`. -/
def isIfStatement (lc : String) : Bool := ifSearch lc && !strStarts "else" lc

/-- Tail of `\belse\s+if\s*\(` after the literal `else`. -/
def elseIfTail (suf : List Char) : Bool :=
  let ws := suf.takeWhile isPySpace
  !ws.isEmpty &&
    (let r := suf.drop ws.length
     startsWithL "if".data r && wsThenChar '(' (r.drop 2))

/-- `_is_else_if_statement`: `re.search(r"\belse\s+if\s*\(", ...)`. -/
def isElseIfStatement (lc : String) : Bool :=
  searchL
    (fun revPre suf =>
      boundaryBefore revPre && startsWithL "else".data suf && elseIfTail (suf.drop 4))
    lc.data

/-- `_is_else_statement`: bare `else` (`\belse\s*$` or `\belse\s+begin`),
rejected outright when the line contains `"else if"`. -/
def isElseStatement (lc : String) : Bool :=
  if strContains "else if" lc then false
  else
    searchL
      (fun revPre suf =>
        boundaryBefore revPre && startsWithL "else".data suf &&
          (wsThenEnd (suf.drop 4) ||
            (let ws := (suf.drop 4).takeWhile isPySpace
             !ws.isEmpty && startsWithL "begin".data ((suf.drop 4).drop ws.length))))
      lc.data

/-- `_convert_else_if_to_if`: `re.sub(r"\belse\s+if\s*\(", "if (", line)`.
The boolean tracks whether the scan position is at a word boundary. -/
def convertGo : Nat → Bool → List Char → List Char
  | _, _, [] => []
  | 0, _, l => l
  | fuel + 1, bnd, c :: rest =>
    if bnd && startsWithL "else".data (c :: rest) && elseIfTail ((c :: rest).drop 4) then
      let after4 := (c :: rest).drop 4
      let r := after4.drop (after4.takeWhile isPySpace).length
      let r2 := (r.drop 2).dropWhile isPySpace
      "if (".data ++ convertGo fuel true (r2.drop 1)
    else c :: convertGo fuel (!isWordChar c) rest

def convertElseIfToIf (line : String) : String :=
  ⟨convertGo line.data.length true line.data⟩

/-- Phase 1 of `_find_if_block_end`: look in the next (at most four) lines for
a `begin`; stop at the first substantial line. -/
def findBeginPhase (lines : List String) : Nat → Nat → Option Nat
  | 0, _ => none
  | n + 1, i =>
    if lines.length ≤ i then none
    else
      let cl := pyStrip (lines.getD i "")
      if cl = "begin" || strEnds "begin" cl then some i
      else if cl ≠ "" && !strStarts "//" cl then none
      else findBeginPhase lines n (i + 1)

/-- Phase 2 of `_find_if_block_end`: depth-counted scan for the matching
`end`. -/
def depthScanGo (lines : List String) : Nat → Nat → Nat → Option Nat
  | 0, _, _ => none
  | fuel + 1, i, depth =>
    if lines.length ≤ i then none
    else
      let cl := pyStrip (lines.getD i "")
      if cl = "begin" || strEnds "begin" cl then depthScanGo lines fuel (i + 1) (depth + 1)
      else if cl = "end" || strStarts "end" cl then
        if depth = 1 then some i else depthScanGo lines fuel (i + 1) (depth - 1)
      else depthScanGo lines fuel (i + 1) depth

/-- Phase 3 of `_find_if_block_end`: next line containing `;` within the
lookahead window. -/
def semiScan (lines : List String) : Nat → Nat → Option Nat
  | 0, _ => none
  | n + 1, i =>
    if strContains ";" (lines.getD i "") then some i else semiScan lines n (i + 1)

/-- `_find_if_block_end`. -/
def findIfBlockEnd (lines : List String) (ifIdx : Nat) : Nat :=
  match findBeginPhase lines (min (ifIdx + 5) lines.length - (ifIdx + 1)) (ifIdx + 1) with
  | some searchStart =>
    match depthScanGo lines (lines.length - (searchStart + 1)) (searchStart + 1) 1 with
    | some i => i
    | none => lines.length - 1
  | none =>
    match semiScan lines (min (ifIdx + 10) lines.length - (ifIdx + 1)) (ifIdx + 1) with
    | some i => i
    | none => min (ifIdx + 3) (lines.length - 1)

/-- One active `if` context of `_analyze_if_else_pairing`. -/
structure IfCtx where
  line : Nat
  indent : Nat
  blockEnd : Nat
  hasElse : Bool
deriving Repr, DecidableEq

/-- `_find_matching_if_for_else` (contexts listed newest first, mirroring the
reversed iteration): index of the first claimable context. -/
def findMatchingIfIdx (elseIndent elseLine : Nat) : List IfCtx → Option Nat
  | [] => none
  | ctx :: rest =>
    if ctx.indent = elseIndent && ctx.blockEnd < elseLine &&
        elseLine ≤ ctx.blockEnd + 5 && !ctx.hasElse then
      some 0
    else (findMatchingIfIdx elseIndent elseLine rest).map (· + 1)

/-- Mark the claimed context (`matching_if["has_else"] = True`). -/
def markHasElse : List IfCtx → Nat → List IfCtx
  | [], _ => []
  | c :: rest, 0 => { c with hasElse := true } :: rest
  | c :: rest, n + 1 => c :: markHasElse rest n

/-- Main loop of `_analyze_if_else_pairing`; pairing records are
`line index ↦ (has_matching_if, if_line)`. -/
def analyzeGo (lines : List String) :
    Nat → List IfCtx → List (Nat × (Bool × Option Nat)) → List String →
    List (Nat × (Bool × Option Nat))
  | _, _, pairs, [] => pairs
  | i, activeIfs, pairs, line :: rest =>
    let lc := pyStrip line
    let indent := (getIndentST line).data.length
    if lc = "" || strStarts "//" lc then analyzeGo lines (i + 1) activeIfs pairs rest
    else if isIfStatement lc then
      analyzeGo lines (i + 1) (⟨i, indent, findIfBlockEnd lines i, false⟩ :: activeIfs) pairs rest
    else if isElseIfStatement lc then
      match findMatchingIfIdx indent i activeIfs with
      | some idx =>
        let ifLine := (activeIfs.get? idx).map IfCtx.line
        analyzeGo lines (i + 1)
          (⟨i, indent, findIfBlockEnd lines i, false⟩ :: markHasElse activeIfs idx)
          ((i, (true, ifLine)) :: pairs) rest
      | none => analyzeGo lines (i + 1) activeIfs ((i, (false, none)) :: pairs) rest
    else if isElseStatement lc then
      match findMatchingIfIdx indent i activeIfs with
      | some idx =>
        let ifLine := (activeIfs.get? idx).map IfCtx.line
        analyzeGo lines (i + 1) (markHasElse activeIfs idx)
          ((i, (true, ifLine)) :: pairs) rest
      | none => analyzeGo lines (i + 1) activeIfs ((i, (false, none)) :: pairs) rest
    else analyzeGo lines (i + 1) (activeIfs.filter fun ctx => i ≤ ctx.blockEnd) pairs rest

def analyzeIfElsePairing (lines : List String) : List (Nat × (Bool × Option Nat)) :=
  analyzeGo lines 0 [] [] lines

/-- `i in pairs and pairs[i]["has_matching_if"]`. -/
def pairedAt (pairs : List (Nat × (Bool × Option Nat))) (i : Nat) : Bool :=
  match pairs.lookup i with
  | some (b, _) => b
  | none => false

/-- Rewrite loop of `fix_if_else_statements`; returns `(fixed_count, lines)`. -/
def rewriteGo (pairs : List (Nat × (Bool × Option Nat))) :
    Nat → Nat → List String → List String → Nat × List String
  | _, fixedC, acc, [] => (fixedC, acc.reverse)
  | i, fixedC, acc, line :: rest =>
    let lc := pyStrip line
    if isElseStatement lc || isElseIfStatement lc then
      if pairedAt pairs i then rewriteGo pairs (i + 1) fixedC (line :: acc) rest
      else if isElseIfStatement lc then
        rewriteGo pairs (i + 1) (fixedC + 1) (convertElseIfToIf line :: acc) rest
      else rewriteGo pairs (i + 1) fixedC acc rest
    else rewriteGo pairs (i + 1) fixedC (line :: acc) rest

/-- `IfElsePatcher.fix_if_else_statements` (the counter is reset on entry). -/
def fixIfElseStatements (lines : List String) : Nat × List String :=
  rewriteGo (analyzeIfElsePairing lines) 0 0 [] lines

/-- `IfElsePatcher.get_summary`. -/
def getSummaryIfElse (fixedC : Nat) : String :=
  if 0 < fixedC then "If-else patch: fixed " ++ toString fixedC ++ " statements"
  else "If-else patch: no changes needed"

/-- The per-line rewrite policy as the specification words it: a paired
`else`/`else if` passes through unchanged, an unpaired `else if` becomes a
standalone `if`, an unpaired bare `else` line is dropped. -/
def describeStep (pairs : List (Nat × (Bool × Option Nat))) (p : Nat × String) :
    Option String :=
  let lc := pyStrip p.2
  if isElseStatement lc || isElseIfStatement lc then
    if pairedAt pairs p.1 then some p.2
    else if isElseIfStatement lc then some (convertElseIfToIf p.2)
    else none
  else some p.2

/-- The whole If-Else rewrite as described by the specification: the policy
applied line by line to the indexed input. -/
def ifElseRewriteDescribed (pairs : List (Nat × (Bool × Option Nat)))
    (lines : List String) : List String :=
  lines.enum.filterMap (describeStep pairs)

/-! ### AlwaysBlockPatcher -/

/-- `re.search(r"\balways\s*$", ...)`. -/
def alwaysPat1 (lc : String) : Bool :=
  searchL
    (fun rp suf => boundaryBefore rp && startsWithL "always".data suf && wsThenEnd (suf.drop 6))
    lc.data

/-- `re.search(r"\balways\s*\(\s*\)$", ...)`. -/
def alwaysPat2 (lc : String) : Bool :=
  searchL
    (fun rp suf =>
      boundaryBefore rp && startsWithL "always".data suf &&
        (match (suf.drop 6).dropWhile isPySpace with
         | '(' :: r1 =>
           (match r1.dropWhile isPySpace with
            | ')' :: rest => rest.isEmpty
            | _ => false)
         | _ => false))
    lc.data

/-- `re.search(r"\balways\s*@\s*$", ...)`. -/
def alwaysPat3 (lc : String) : Bool :=
  searchL
    (fun rp suf =>
      boundaryBefore rp && startsWithL "always".data suf &&
        (match (suf.drop 6).dropWhile isPySpace with
         | '@' :: r1 => (r1.dropWhile isPySpace).isEmpty
         | _ => false))
    lc.data

/-- `re.search(r"\balways\s*@\s*\(\s*\)$", ...)`. -/
def alwaysPat4 (lc : String) : Bool :=
  searchL
    (fun rp suf =>
      boundaryBefore rp && startsWithL "always".data suf &&
        (match (suf.drop 6).dropWhile isPySpace with
         | '@' :: r1 =>
           (match r1.dropWhile isPySpace with
            | '(' :: r2 =>
              (match r2.dropWhile isPySpace with
               | ')' :: rest => rest.isEmpty
               | _ => false)
            | _ => false)
         | _ => false))
    lc.data

/-- `_is_incomplete_always_block`. -/
def isIncompleteAlwaysBlock (lc : String) : Bool :=
  alwaysPat1 lc || alwaysPat2 lc || alwaysPat3 lc || alwaysPat4 lc

/-- Capture group of `re.search(r"input.*?(\w*clk\w*)", lc)`: the word run
around the first `clk` occurrence after the first `input` occurrence. -/
def firstSubIdx (pat : List Char) (l : List Char) : Option Nat :=
  (List.range (l.length + 1)).find? fun i => pat.isPrefixOf (l.drop i)

def extractClkGroup (lc : List Char) : Option (List Char) := do
  let ip ← firstSubIdx "input".data lc
  let T := lc.drop (ip + 5)
  let q ← firstSubIdx "clk".data T
  let wlen := ((T.take q).reverse.takeWhile isWordChar).length
  let runStart := q - wlen
  let endIdx := q + 3 + ((T.drop (q + 3)).takeWhile isWordChar).length
  pure ((T.drop runStart).take (endIdx - runStart))

/-- First loop of `_detect_clock_signal`: an `input` declaration mentioning a
clock. -/
def detectClockLoop1 : List String → Option String
  | [] => none
  | line :: rest =>
    let lc := pyLower (pyStrip line)
    if strContains "input" lc && (strContains "clk" lc || strContains "clock" lc) then
      match extractClkGroup lc.data with
      | some g => some ⟨g⟩
      | none => detectClockLoop1 rest
    else detectClockLoop1 rest

/-- Second loop of `_detect_clock_signal`: well-known clock names used with an
edge keyword. -/
def detectClockLoop2 (lines100 : List String) : List String → Option String
  | [] => none
  | clk :: restClks =>
    if lines100.any (fun line =>
        strContains ("posedge " ++ clk) line || strContains ("negedge " ++ clk) line) then
      some clk
    else detectClockLoop2 lines100 restClks

/-- `_detect_clock_signal`. -/
def detectClockSignal (lines : List String) : String :=
  match detectClockLoop1 (lines.take 50) with
  | some s => s
  | none =>
    match detectClockLoop2 (lines.take 100) ["clk", "clock", "aclk", "pclk"] with
    | some c => c
    | none => "clk"

/-- `_has_sequential_logic_nearby`. -/
def hasSequentialLogicNearby (lines : List String) (idx : Nat) : Bool :=
  ((lines.take (idx + 5)).drop (idx - 5)).any fun l =>
    strContains "<=" l && !strStarts "//" (pyStrip l)

/-- `_fix_incomplete_always_block`. -/
def fixIncompleteAlwaysBlock (line : String) (lines : List String) (idx : Nat) : String :=
  let lc := pyStrip line
  let indent := getIndentWs line
  let clock := detectClockSignal lines
  let hasSeq := hasSequentialLogicNearby lines idx
  if alwaysPat1 lc then
    if hasSeq && clock ≠ "" then indent ++ "always @(posedge " ++ clock ++ ") begin\n"
    else indent ++ "always @(*) begin\n"
  else if alwaysPat2 lc then replaceAll "always ()" "always @(*)" line
  else if alwaysPat3 lc then
    if hasSeq && clock ≠ "" then indent ++ "always @(posedge " ++ clock ++ ") begin\n"
    else indent ++ "always @(*) begin\n"
  else if alwaysPat4 lc then replaceAll "always @()" "always @(*)" line
  else if hasSeq && clock ≠ "" then indent ++ "always @(posedge " ++ clock ++ ") begin\n"
  else line

/-- Loop of `fix_always_blocks`, threading `incomplete_blocks_fixed` (which
the Python method never resets). -/
def fixAlwaysGo (lines : List String) : Nat → Nat → List String → Nat × List String
  | _, cnt, [] => (cnt, [])
  | i, cnt, line :: rest =>
    if isIncompleteAlwaysBlock (pyStrip line) then
      let fixedLine := fixIncompleteAlwaysBlock line lines i
      let (c, ls) := fixAlwaysGo lines (i + 1) (cnt + 1) rest
      (c, fixedLine :: ls)
    else
      let (c, ls) := fixAlwaysGo lines (i + 1) cnt rest
      (c, line :: ls)

/-- `AlwaysBlockPatcher.fix_always_blocks`: `cnt` is the instance counter
coming into the call; it is not reinitialised. -/
def fixAlwaysBlocks (cnt : Nat) (lines : List String) : Nat × List String :=
  fixAlwaysGo lines 0 cnt lines

/-- `AlwaysBlockPatcher.get_summary`. -/
def getSummaryAlways (cnt : Nat) : String :=
  if 0 < cnt then "Always patch: fixed " ++ toString cnt ++ " incomplete always blocks"
  else "Always patch: no changes needed"

/-! ### GenerateBlockPatcher -/

/-- Label group of `re.match(r"^\s*begin\s*:\s*(\w+)\s*$", line)`. -/
def beginLabelOf (lc : String) : Option String :=
  let t := lc.data.dropWhile isPySpace
  if startsWithL "begin".data t then
    match (t.drop 5).dropWhile isPySpace with
    | ':' :: r =>
      let w := (r.dropWhile isPySpace).takeWhile isWordChar
      if w.isEmpty then none
      else if ((((r.dropWhile isPySpace).drop w.length).dropWhile isPySpace)).isEmpty then
        some ⟨w⟩
      else none
    | _ => none
  else none

/-- `_is_orphan_generate_block`. -/
def isOrphanGenerateBlock (lc : String) : Bool := (beginLabelOf lc).isSome

/-- `re.match(r"^\s*end\s*;?\s*$", line_clean)`. -/
def endBareMatch (lc : String) : Bool :=
  let t := lc.data.dropWhile isPySpace
  if startsWithL "end".data t then
    match (t.drop 3).dropWhile isPySpace with
    | [] => true
    | ';' :: r2 => (r2.dropWhile isPySpace).isEmpty
    | _ => false
  else false

/-- Scan of `_collect_single_block`: first index after `start` where the block
stops (exclusive upper bound of the block content). -/
def collectSingleBlockEnd (lines : List String) : Nat → Nat → Nat
  | 0, i => i
  | fuel + 1, i =>
    if lines.length ≤ i then i
    else
      let lc := pyStrip (lines.getD i "")
      if isOrphanGenerateBlock lc then i
      else if strStarts "endmodule" lc || strStarts "module " lc ||
          strStarts "always" lc || strStarts "assign" lc || endBareMatch lc then i
      else collectSingleBlockEnd lines fuel (i + 1)

/-- One collected labeled block. -/
structure GenBlock where
  label : String
  startIdx : Nat
  endIdx : Nat
  contentLines : List String
deriving Repr, DecidableEq

/-- `_collect_single_block`. -/
def collectSingleBlock (lines : List String) (startIdx : Nat) : Option GenBlock :=
  if lines.length ≤ startIdx then none
  else
    match beginLabelOf (pyStrip (lines.getD startIdx "")) with
    | none => none
    | some label =>
      let stop := collectSingleBlockEnd lines (lines.length - (startIdx + 1)) (startIdx + 1)
      some ⟨label, startIdx, stop - 1, (lines.drop startIdx).take (stop - startIdx)⟩

/-- `_block_needs_genvar`. -/
def blockNeedsGenvar (b : GenBlock) (lines : List String) : Bool :=
  ((lines.take (b.endIdx + 1)).drop b.startIdx).any fun line =>
    ["[I]", "[i]", "[J]", "[j]", "[K]", "[k]", "[idx]", "[index]"].any
      fun p => strContains p line

/-- Loop of `_collect_orphan_blocks`; returns the blocks, the index where the
scan stopped, and the `needs_genvar` flag. -/
def collectOrphanGo (lines : List String) :
    Nat → Nat → Bool → List GenBlock → List GenBlock × Nat × Bool
  | 0, i, g, acc => (acc.reverse, i, g)
  | fuel + 1, i, g, acc =>
    if lines.length ≤ i then (acc.reverse, i, g)
    else
      let lc := pyStrip (lines.getD i "")
      if isOrphanGenerateBlock lc then
        match collectSingleBlock lines i with
        | some b =>
          let g' := if !g && blockNeedsGenvar b lines then true else g
          collectOrphanGo lines fuel (b.endIdx + 1) g' (b :: acc)
        | none => (acc.reverse, i, g)
      else (acc.reverse, i, g)

/-- Group 1 of `re.search(r"parameter\s+(\w+)\s*=\s*(\d+)", line_clean)` when
the pattern matches starting exactly at the given suffix. -/
def paramTryAt (suf : List Char) : Option (List Char) :=
  if startsWithL "parameter".data suf then
    let r := suf.drop 9
    let ws := r.takeWhile isPySpace
    if ws.isEmpty then none
    else
      let r2 := r.drop ws.length
      let w := r2.takeWhile isWordChar
      if w.isEmpty then none
      else
        match (r2.drop w.length).dropWhile isPySpace with
        | '=' :: r4 =>
          if ((r4.dropWhile isPySpace).takeWhile isDigitChar).isEmpty then none else some w
        | _ => none
  else none

def paramNameOf (lc : String) : Option String :=
  ((List.range (lc.data.length + 1)).findSome? fun i => paramTryAt (lc.data.drop i)).map
    fun w => (⟨w⟩ : String)

/-- `_infer_generate_loop_range`. -/
def inferGenerateLoopRange (lines : List String) : String :=
  match
    (lines.take 100).findSome? fun line =>
      match paramNameOf (pyStrip line) with
      | some name =>
        if ["width", "size", "num", "count"].any (fun kw => strContains kw (pyLower name)) then
          some name
        else none
      | none => none
  with
  | some n => n
  | none => "8"

/-- `_wrap_with_generate` (without its counter update, handled by the caller). -/
def wrapWithGenerate (blocks : List GenBlock) (needsGenvar : Bool) (startIdx : Nat)
    (lines : List String) : List String :=
  let baseIndent := getIndentWs (lines.getD startIdx "")
  (if needsGenvar then [baseIndent ++ "genvar I;\n"] else []) ++
    [baseIndent ++ "generate\n"] ++
    (if needsGenvar then
      [baseIndent ++ "  for (I = 0; I < " ++ inferGenerateLoopRange lines ++ "; I = I + 1) begin\n"]
     else []) ++
    (blocks.flatMap fun b => ((lines.take (b.endIdx + 1)).drop b.startIdx).map ("  " ++ ·)) ++
    (if needsGenvar then [baseIndent ++ "  end\n"] else []) ++
    [baseIndent ++ "endgenerate\n"]

/-- Main loop of `fix_generate_blocks`, threading the two instance counters
(`orphan_blocks_fixed`, `missing_genvar_added`), which the method never
resets. -/
def fixGenGo (lines : List String) : Nat → Nat → Nat → Nat → (Nat × Nat) × List String
  | 0, _, o, g => ((o, g), [])
  | fuel + 1, i, o, g =>
    if lines.length ≤ i then ((o, g), [])
    else
      let line := lines.getD i ""
      let lc := pyStrip line
      if isOrphanGenerateBlock lc then
        let (blocks, stopIdx, needs) := collectOrphanGo lines (lines.length - i) i false []
        if !blocks.isEmpty then
          let wrapped := wrapWithGenerate blocks needs i lines
          let (cnts, ls) := fixGenGo lines fuel ((stopIdx - 1) + 1)
            (o + blocks.length) (g + if needs then 1 else 0)
          (cnts, wrapped ++ ls)
        else
          let (cnts, ls) := fixGenGo lines fuel (i + 1) o g
          (cnts, line :: ls)
      else
        let (cnts, ls) := fixGenGo lines fuel (i + 1) o g
        (cnts, line :: ls)

/-- `GenerateBlockPatcher.fix_generate_blocks` with incoming counters. -/
def fixGenerateBlocks (o g : Nat) (lines : List String) : (Nat × Nat) × List String :=
  fixGenGo lines lines.length 0 o g

/-- `GenerateBlockPatcher.get_summary`. -/
def getSummaryGenerate (o g : Nat) : String :=
  let parts :=
    (if 0 < o then ["wrapped " ++ toString o ++ " orphan blocks"] else []) ++
    (if 0 < g then ["added " ++ toString g ++ " genvar declarations"] else [])
  match parts with
  | [] => "Generate patch: no changes needed"
  | [p] => "Generate patch: " ++ p
  | p :: q :: _ => "Generate patch: " ++ p ++ ", " ++ q

/-! ### SyntaxErrorPatcher (orchestrator) -/

/-- `^\s*X\s*$` for a single character from a class. -/
def wsSingleWs (p : Char → Bool) (l : List Char) : Bool :=
  match l.dropWhile isPySpace with
  | c :: r => p c && (r.dropWhile isPySpace).isEmpty
  | [] => false

/-- `_is_obvious_orphan_operator`. -/
def isObviousOrphanOperator (lc : String) : Bool :=
  if lc = "" then false
  else
    wsSingleWs (fun c => c = '&' || c = '|' || c = '^' || c = '~') lc.data ||
    wsSingleWs (fun c => c = '+' || c = '-' || c = '*' || c = '/') lc.data ||
    wsSingleWs (fun c => c = '<' || c = '>' || c = '=' || c = '!') lc.data ||
    wsSingleWs (fun c => c = '{' || c = '}') lc.data ||
    wsSingleWs (fun c => c = ':') lc.data ||
    wsSingleWs (fun c => c = '?') lc.data

/-- `_needs_genvar_declaration`; `prevRev` is the output built so far, newest
line first (so the Python `previous_lines[-20:]` is `prevRev.take 20`). -/
def needsGenvarDeclaration (lc : String) (prevRev : List String) : Bool :=
  strContains "genvar" lc && !strContains "generate" lc &&
    (prevRev.take 20).all fun prev => !strContains "genvar" (pyStrip prev)

/-- `_create_genvar_declaration`. -/
def createGenvarDeclaration (line : String) : String :=
  getIndentWs line ++ "genvar i;\n"

/-- Loop of `_conservative_cleanup`. -/
def cleanupGo : List String → List String → List String
  | acc, [] => acc.reverse
  | acc, line :: rest =>
    let lc := pyStrip line
    if isObviousOrphanOperator lc then cleanupGo acc rest
    else if needsGenvarDeclaration lc acc then
      cleanupGo (line :: createGenvarDeclaration line :: acc) rest
    else cleanupGo (line :: acc) rest

/-- `SyntaxErrorPatcher._conservative_cleanup`. -/
def conservativeCleanup (lines : List String) : List String := cleanupGo [] lines

def digitsToNat (ds : List Char) : Nat :=
  ds.foldl (fun acc c => acc * 10 + (c.toNat - 48)) 0

/-- Match of `fixed\s*(\d+)` starting exactly at the given suffix. -/
def parseFixedAt (suf : List Char) : Option Nat :=
  if startsWithL "fixed".data suf then
    let ds := ((suf.drop 5).dropWhile isPySpace).takeWhile isDigitChar
    if ds.isEmpty then none else some (digitsToNat ds)
  else none

/-- `re.search(r"fixed\s*(\d+)", summary)`, returning the captured number. -/
def parseFixedCount (s : String) : Option Nat :=
  (List.range (s.data.length + 1)).findSome? fun i => parseFixedAt (s.data.drop i)

/-- `SyntaxErrorPatcher._update_stats`. -/
def updateStats (summary : String) (total : Nat) : Nat :=
  if strContains "fixed" summary then
    match parseFixedCount summary with
    | some n => total + n
    | none => total
  else total

/-- End-to-end result of one `fix_all_syntax_errors` call on a freshly
constructed `SyntaxErrorPatcher` (all instance counters start at zero). -/
structure SyntaxPatchResult where
  assignFixed : Nat
  assignMerged : Nat
  caseRemoved : Nat
  caseInserted : Nat
  ifElseFixed : Nat
  alwaysIncomplete : Nat
  genOrphan : Nat
  genGenvar : Nat
  totalFixes : Nat
  outLines : List String
deriving Repr, DecidableEq

/-- `SyntaxErrorPatcher.fix_all_syntax_errors`. -/
def fixAllSyntaxErrors (lines : List String) : SyntaxPatchResult :=
  let (af, am, l1) := fixAssignStatements lines
  let t1 := updateStats (getSummaryAssign af am) 0
  let (cr, ci, l2) := fixCaseStatements l1
  let t2 := updateStats (getSummaryCase cr ci) t1
  let (ie, l3) := fixIfElseStatements l2
  let t3 := updateStats (getSummaryIfElse ie) t2
  let (ai, l4) := fixAlwaysBlocks 0 l3
  let t4 := updateStats (getSummaryAlways ai) t3
  let (gc, l5) := fixGenerateBlocks 0 0 l4
  let t5 := updateStats (getSummaryGenerate gc.1 gc.2) t4
  ⟨af, am, cr, ci, ie, ai, gc.1, gc.2, t5, conservativeCleanup l5⟩

/-! ### Specification-side predicates used by the claim theorems -/

/-- Declarative reading of the empty-case-region criterion that
`_is_empty_case_structure` actually implements: every in-range interior line
is blank, a comment, a `default:` line, a `{...}:` group label, or carries
neither `=` nor any of the `begin`/`if`/`for`/`while` substrings. -/
def EmptyCaseDecl (lines : List String) (s e : Nat) : Prop :=
  ∀ i, s + 1 ≤ i → i < e → i < lines.length →
    pyStrip (lines.getD i "") = "" ∨
    strStarts "//" (pyStrip (lines.getD i "")) = true ∨
    strStarts "default:" (pyStrip (lines.getD i "")) = true ∨
    braceLabelMatch (pyStrip (lines.getD i "")) = true ∨
    (strContains "=" (pyStrip (lines.getD i "")) = false ∧
      ∀ kw ∈ (["begin", "if", "for", "while"] : List String),
        strContains kw (pyStrip (lines.getD i "")) = false)

/-- The sixteen one-character operator lines targeted by
`_is_obvious_orphan_operator`. -/
def orphanSingletons : List String :=
  ["&", "|", "^", "~", "+", "-", "*", "/", "<", ">", "=", "!", "\x7b", "\x7d", ":", "?"]

/-- Open `case` contexts still owed a synthesized `endcase`. -/
def stackDebts (st : List CaseCtx) : Nat :=
  (st.filter fun c => !c.foundEndcase).length

/-- Every context indent on the stack consists of whitespace characters. -/
def WsStack (st : List CaseCtx) : Prop :=
  ∀ c ∈ st, ∀ ch ∈ c.indent.data, isPySpace ch = true

/-! ### Basic counting and whitespace lemmas -/

lemma dropWhile_append_of_all {p : Char → Bool} {l1 l2 : List Char}
    (h : ∀ c ∈ l1, p c = true) : (l1 ++ l2).dropWhile p = l2.dropWhile p := by
  induction l1 with
  | nil => simp
  | cons a l ih =>
    simp only [List.cons_append, List.dropWhile_cons, h a (by simp), if_true]
    exact ih fun c hc => h c (by simp [hc])

lemma getIndentWs_all_ws (line : String) :
    ∀ c ∈ (getIndentWs line).data, isPySpace c = true := by
  intro c hc
  exact List.mem_takeWhile_imp hc

lemma countChar_eq_zero_of_all_ws {x : Char} (hx : isPySpace x = false) {l : List Char}
    (h : ∀ c ∈ l, isPySpace c = true) : countChar x l = 0 := by
  unfold countChar
  rw [List.count_eq_zero]
  intro hmem
  rw [h x hmem] at hx
  exact absurd hx (by decide)

lemma countChar_dropWhile_ws {x : Char} (hx : isPySpace x = false) (l : List Char) :
    countChar x (l.dropWhile isPySpace) = countChar x l := by
  conv_rhs => rw [← List.takeWhile_append_dropWhile (p := isPySpace) (l := l)]
  unfold countChar
  rw [List.count_append]
  have hz : countChar x (l.takeWhile isPySpace) = 0 :=
    countChar_eq_zero_of_all_ws hx fun c hc => List.mem_takeWhile_imp hc
  unfold countChar at hz
  omega

lemma countChar_rstrip {x : Char} (hx : isPySpace x = false) (l : List Char) :
    countChar x (rstripL l) = countChar x l := by
  unfold rstripL countChar
  rw [List.count_reverse]
  have h := countChar_dropWhile_ws hx l.reverse
  unfold countChar at h
  rw [h, List.count_reverse]

lemma all_ws_of_stripL_nil {l : List Char} (h : stripL l = []) :
    ∀ c ∈ l, isPySpace c = true := by
  unfold stripL rstripL lstripL at h
  have h1 : (l.dropWhile isPySpace).reverse.dropWhile isPySpace = [] :=
    List.reverse_eq_nil_iff.mp h
  have h2 : ∀ c ∈ (l.dropWhile isPySpace).reverse, isPySpace c = true :=
    List.dropWhile_eq_nil_iff.mp h1
  intro c hc
  have hmem : c ∈ l.takeWhile isPySpace ++ l.dropWhile isPySpace := by
    rw [List.takeWhile_append_dropWhile]
    exact hc
  rcases List.mem_append.mp hmem with hm | hm
  · exact List.mem_takeWhile_imp hm
  · exact h2 c (List.mem_reverse.mpr hm)

lemma countChar_collapseWs {x : Char} (hx : isPySpace x = false) :
    ∀ l : List Char, countChar x (collapseWs l) = countChar x l := by
  have hsx : ¬ ((' ' : Char) == x) = true := by
    intro hc
    rw [beq_iff_eq] at hc
    rw [← hc] at hx
    simp [isPySpace] at hx
  have hwx : ∀ c : Char, isPySpace c = true → ¬ (c == x) = true := by
    intro c hc hb
    rw [beq_iff_eq] at hb
    rw [hb, hx] at hc
    exact absurd hc (by decide)
  intro l
  induction l using collapseWs.induct with
  | case1 => rfl
  | case2 c hc =>
    rw [collapseWs.eq_def]
    simp only [hc, if_true]
    unfold countChar
    simp [List.count_cons, hwx c hc, hsx]
  | case3 c hc b rest hb ih =>
    rw [collapseWs.eq_def]
    simp only [hc, hb, if_true]
    unfold countChar at ih ⊢
    simp [List.count_cons, ih, hwx c hc]
  | case4 c hc b rest hb ih =>
    have hb' : isPySpace b = false := Bool.eq_false_iff.mpr hb
    rw [collapseWs.eq_def]
    simp only [hc, hb', Bool.false_eq_true, if_true, if_false]
    unfold countChar at ih ⊢
    simp [List.count_cons, ih, hwx c hc, hsx]
  | case5 c rest hc ih =>
    have hc' : isPySpace c = false := Bool.eq_false_iff.mpr hc
    rw [collapseWs.eq_def]
    simp only [hc', Bool.false_eq_true, if_false]
    unfold countChar at ih ⊢
    simp [List.count_cons, ih]

/-! ### Lemmas about the final cleanup (claim C10) -/

lemma pyStrip_createGenvar (line : String) :
    pyStrip (createGenvarDeclaration line) = "genvar i;" := by
  have h1 : stripL (createGenvarDeclaration line).data = "genvar i;".data := by
    rw [show (createGenvarDeclaration line).data =
      (getIndentWs line).data ++ "genvar i;\n".data from rfl]
    unfold stripL lstripL
    rw [dropWhile_append_of_all (getIndentWs_all_ws line)]
    decide
  show ({ data := stripL (createGenvarDeclaration line).data } : String) = "genvar i;"
  rw [h1]

lemma cleanupGo_not_orphan :
    ∀ (ls acc : List String),
      (∀ x ∈ acc, isObviousOrphanOperator (pyStrip x) = false) →
      ∀ l ∈ cleanupGo acc ls, isObviousOrphanOperator (pyStrip l) = false := by
  intro ls
  induction ls with
  | nil =>
    intro acc hacc l hl
    rw [cleanupGo] at hl
    exact hacc l (List.mem_reverse.mp hl)
  | cons line rest ih =>
    intro acc hacc l hl
    rw [cleanupGo] at hl
    by_cases h1 : isObviousOrphanOperator (pyStrip line) = true
    · rw [if_pos h1] at hl
      exact ih acc hacc l hl
    · rw [if_neg h1] at hl
      have hline : isObviousOrphanOperator (pyStrip line) = false :=
        Bool.eq_false_iff.mpr h1
      by_cases h2 : needsGenvarDeclaration (pyStrip line) acc = true
      · rw [if_pos h2] at hl
        refine ih _ ?_ l hl
        intro x hx
        rcases List.mem_cons.mp hx with rfl | hx'
        · exact hline
        · rcases List.mem_cons.mp hx' with rfl | hx''
          · rw [pyStrip_createGenvar]; decide
          · exact hacc x hx''
      · rw [if_neg h2] at hl
        refine ih _ ?_ l hl
        intro x hx
        rcases List.mem_cons.mp hx with rfl | hx'
        · exact hline
        · exact hacc x hx'

/-! ### Counter lemmas for the Always and Generate passes (claim C9) -/

lemma fixAlwaysGo_acc (lines : List String) :
    ∀ (ls : List String) (i cnt : Nat),
      (fixAlwaysGo lines i cnt ls).1 = cnt + (fixAlwaysGo lines i 0 ls).1 ∧
      (fixAlwaysGo lines i cnt ls).2 = (fixAlwaysGo lines i 0 ls).2 := by
  intro ls
  induction ls with
  | nil => intro i cnt; simp [fixAlwaysGo]
  | cons line rest ih =>
    intro i cnt
    by_cases h : isIncompleteAlwaysBlock (pyStrip line) = true
    · simp only [fixAlwaysGo, h, if_true]
      obtain ⟨h1, h2⟩ := ih (i + 1) (cnt + 1)
      obtain ⟨h1', h2'⟩ := ih (i + 1) 1
      simp only [h1, h2, h1', h2']
      exact ⟨by omega, trivial⟩
    · have h' : isIncompleteAlwaysBlock (pyStrip line) = false := Bool.eq_false_iff.mpr h
      simp only [fixAlwaysGo, h', Bool.false_eq_true, if_false]
      obtain ⟨h1, h2⟩ := ih (i + 1) cnt
      simp only [h1, h2]
      trivial

lemma fixGenGo_acc (lines : List String) :
    ∀ (fuel i o g : Nat),
      (fixGenGo lines fuel i o g).1 =
        (o + (fixGenGo lines fuel i 0 0).1.1, g + (fixGenGo lines fuel i 0 0).1.2) ∧
      (fixGenGo lines fuel i o g).2 = (fixGenGo lines fuel i 0 0).2 := by
  intro fuel
  induction fuel with
  | zero => intro i o g; simp [fixGenGo]
  | succ fuel ih =>
    intro i o g
    by_cases hlen : lines.length ≤ i
    · simp [fixGenGo, hlen]
    · by_cases horph : isOrphanGenerateBlock (pyStrip (lines.getD i "")) = true
      · simp only [fixGenGo, if_neg hlen, horph, if_true]
        by_cases hblk :
            (collectOrphanGo lines (lines.length - i) i false []).1.isEmpty = true
        · simp only [hblk, Bool.not_true, Bool.false_eq_true, if_false]
          obtain ⟨h1, h2⟩ := ih (i + 1) o g
          simp only [h1, h2]
          trivial
        · have hblk' :
              (!(collectOrphanGo lines (lines.length - i) i false []).1.isEmpty) = true := by
            simp [Bool.eq_false_iff.mpr hblk]
          simp only [hblk', if_true]
          obtain ⟨h1, h2⟩ := ih ((collectOrphanGo lines (lines.length - i) i false []).2.1 - 1 + 1)
            (o + (collectOrphanGo lines (lines.length - i) i false []).1.length)
            (g + if (collectOrphanGo lines (lines.length - i) i false []).2.2 then 1 else 0)
          obtain ⟨h1', h2'⟩ := ih ((collectOrphanGo lines (lines.length - i) i false []).2.1 - 1 + 1)
            (0 + (collectOrphanGo lines (lines.length - i) i false []).1.length)
            (0 + if (collectOrphanGo lines (lines.length - i) i false []).2.2 then 1 else 0)
          simp only [h1, h2, h1', h2']
          refine ⟨?_, trivial⟩
          simp only [Prod.mk.injEq]
          omega
      · have h' : isOrphanGenerateBlock (pyStrip (lines.getD i "")) = false :=
          Bool.eq_false_iff.mpr horph
        simp only [fixGenGo, if_neg hlen, h', Bool.false_eq_true, if_false]
        obtain ⟨h1, h2⟩ := ih (i + 1) o g
        simp only [h1, h2]
        trivial

/-! ### The If-Else rewrite equals the described policy (claim C4) -/

lemma rewriteGo_filterMap (pairs : List (Nat × (Bool × Option Nat))) :
    ∀ (ls : List String) (i fixedC : Nat) (acc : List String),
      (rewriteGo pairs i fixedC acc ls).2 =
        acc.reverse ++ (List.enumFrom i ls).filterMap (describeStep pairs) := by
  intro ls
  induction ls with
  | nil => intro i fixedC acc; simp [rewriteGo]
  | cons line rest ih =>
    intro i fixedC acc
    cases he1 : isElseStatement (pyStrip line) <;>
      cases he2 : isElseIfStatement (pyStrip line) <;>
        cases hp1 : pairedAt pairs i <;>
          simp only [rewriteGo, describeStep, he1, he2, hp1, Bool.or_self, Bool.or_true,
            Bool.true_or, Bool.or_false, Bool.false_or, if_true, if_false,
            Bool.false_eq_true, List.enumFrom, List.filterMap_cons] <;>
          rw [ih] <;> simp

lemma subACCore_nil (t : Char) (dropMode : Bool) (pend : List Char) :
    subACCore t dropMode pend [] = if dropMode = true then [] else pend.reverse := rfl

lemma subACCore_cons (t : Char) (dropMode : Bool) (pend : List Char) (c : Char)
    (rest : List Char) :
    subACCore t dropMode pend (c :: rest) =
      if c = t then ' ' :: t :: ' ' :: subACCore t true [] rest
      else if isPySpace c = true then subACCore t dropMode (c :: pend) rest
      else (if dropMode = true then [] else pend.reverse) ++ c :: subACCore t false [] rest := rfl

lemma count_cons_eq (x c : Char) (rest : List Char) :
    List.count x (c :: rest) = List.count x rest + (if c = x then 1 else 0) := by
  rw [List.count_cons]
  congr 1
  simp [beq_iff_eq]

lemma countChar_subACCore (t x : Char) (hx : isPySpace x = false) :
    ∀ (l : List Char) (dropMode : Bool) (pend : List Char),
      (∀ c ∈ pend, isPySpace c = true) →
      countChar x (subACCore t dropMode pend l) = countChar x l := by
  have hs0 : (if (' ' : Char) = x then 1 else 0) = 0 := by
    rw [if_neg]
    intro hc
    rw [← hc] at hx
    exact absurd hx (by decide)
  intro l
  induction l with
  | nil =>
    intro dropMode pend hpend
    rw [subACCore_nil]
    cases dropMode with
    | true => rfl
    | false =>
      simp only [Bool.false_eq_true, if_false]
      unfold countChar
      rw [List.count_reverse, List.count_nil]
      have hz := countChar_eq_zero_of_all_ws hx hpend
      unfold countChar at hz
      exact hz
  | cons c rest ih =>
    intro dropMode pend hpend
    unfold countChar at ih ⊢
    have hpz : List.count x (if dropMode = true then ([] : List Char) else pend.reverse) = 0 := by
      cases dropMode with
      | true => simp
      | false =>
        simp only [Bool.false_eq_true, if_false]
        rw [List.count_reverse]
        have hz2 := countChar_eq_zero_of_all_ws hx hpend
        unfold countChar at hz2
        exact hz2
    by_cases hct : c = t
    · subst hct
      rw [subACCore_cons, if_pos rfl]
      have hrec := ih true [] (by intro a ha; exact absurd ha (List.not_mem_nil a))
      rw [count_cons_eq, count_cons_eq, count_cons_eq, count_cons_eq, hrec, hs0]
      omega
    · by_cases hcw : isPySpace c = true
      · have hcx : ¬ c = x := by
          intro hc
          rw [hc, hx] at hcw
          exact absurd hcw (by decide)
        rw [subACCore_cons, if_neg hct, if_pos hcw]
        have hrec := ih dropMode (c :: pend) (by
          intro a ha
          rcases List.mem_cons.mp ha with rfl | ha'
          · exact hcw
          · exact hpend a ha')
        rw [hrec, count_cons_eq, if_neg hcx]
        omega
      · have hcw' : isPySpace c = false := Bool.eq_false_iff.mpr hcw
        rw [subACCore_cons, if_neg hct, if_neg (by rw [hcw']; exact Bool.false_ne_true)]
        have hrec := ih false [] (by intro a ha; exact absurd ha (List.not_mem_nil a))
        rw [List.count_append, count_cons_eq, hrec, count_cons_eq, hpz]
        omega

lemma countChar_subAroundChar (t x : Char) (hx : isPySpace x = false) (l : List Char) :
    countChar x (subAroundChar t l) = countChar x l :=
  countChar_subACCore t x hx l false [] (by intro a ha; exact absurd ha (List.not_mem_nil a))

lemma subEqEqCore_none_cons (c : Char) (rest : List Char) :
    subEqEqCore none (c :: rest) =
      if c = '=' then subEqEqCore (some []) rest else c :: subEqEqCore none rest := rfl

lemma subEqEqCore_some_cons (pend : List Char) (c : Char) (rest : List Char) :
    subEqEqCore (some pend) (c :: rest) =
      if c = '=' then
        if pend.isEmpty then '=' :: subEqEqCore (some []) rest
        else '=' :: '=' :: subEqEqCore none rest
      else if isPySpace c = true then subEqEqCore (some (c :: pend)) rest
      else '=' :: pend.reverse ++ c :: subEqEqCore none rest := rfl

lemma countChar_subEqEqCore (x : Char) (hx : isPySpace x = false) (hxe : ¬ x = '=') :
    ∀ (l : List Char) (st : Option (List Char)),
      (∀ pend, st = some pend → ∀ c ∈ pend, isPySpace c = true) →
      countChar x (subEqEqCore st l) = countChar x l := by
  have heq0 : (if ('=' : Char) = x then 1 else 0) = 0 :=
    if_neg fun h => hxe h.symm
  have hnilst : ∀ pend, (some ([] : List Char)) = some pend →
      ∀ c ∈ pend, isPySpace c = true := by
    intro pend hp a ha
    obtain rfl := Option.some.inj hp
    exact absurd ha (List.not_mem_nil a)
  have hnonest : ∀ pend, (none : Option (List Char)) = some pend →
      ∀ c ∈ pend, isPySpace c = true := by
    intro pend hp
    exact absurd hp (by simp)
  intro l
  induction l with
  | nil =>
    intro st hst
    cases st with
    | none => rfl
    | some pend =>
      show countChar x ('=' :: pend.reverse) = countChar x []
      unfold countChar
      rw [count_cons_eq, List.count_reverse, List.count_nil]
      have hz := countChar_eq_zero_of_all_ws hx (hst pend rfl)
      unfold countChar at hz
      rw [hz, heq0]
  | cons c rest ih =>
    intro st hst
    unfold countChar at ih ⊢
    cases st with
    | none =>
      rw [subEqEqCore_none_cons]
      by_cases hc : c = '='
      · rw [if_pos hc, hc, ih (some []) hnilst, count_cons_eq, heq0]
        omega
      · rw [if_neg hc, count_cons_eq, count_cons_eq, ih none hnonest]
    | some pend =>
      have hpw : ∀ c ∈ pend, isPySpace c = true := hst pend rfl
      have hpz : List.count x pend.reverse = 0 := by
        rw [List.count_reverse]
        have hz := countChar_eq_zero_of_all_ws hx hpw
        unfold countChar at hz
        exact hz
      rw [subEqEqCore_some_cons]
      by_cases hc : c = '='
      · rw [if_pos hc]
        by_cases hp : pend.isEmpty = true
        · rw [if_pos hp, hc, count_cons_eq, count_cons_eq, ih (some []) hnilst, heq0]
        · rw [if_neg hp, hc, count_cons_eq, count_cons_eq, count_cons_eq,
            ih none hnonest, heq0]
      · by_cases hw : isPySpace c = true
        · rw [if_neg hc, if_pos hw]
          have hcx : (if c = x then 1 else 0) = 0 := by
            rw [if_neg]
            intro h
            rw [h, hx] at hw
            exact absurd hw (by decide)
          rw [ih (some (c :: pend)) (by
            intro p hp a ha
            obtain rfl := Option.some.inj hp
            rcases List.mem_cons.mp ha with rfl | ha'
            · exact hw
            · exact hpw a ha'), count_cons_eq, hcx]
          omega
        · rw [if_neg hc, if_neg (by rw [Bool.eq_false_iff.mpr hw]; exact Bool.false_ne_true)]
          rw [count_cons_eq, List.count_append, count_cons_eq, count_cons_eq,
            ih none hnonest, hpz, heq0]
          omega

lemma countChar_subEqEq (x : Char) (hx : isPySpace x = false) (hxe : ¬ x = '=')
    (l : List Char) : countChar x (subEqEq l) = countChar x l :=
  countChar_subEqEqCore x hx hxe l none (by intro p hp; exact absurd hp (by simp))

lemma count_flatten_replicate (x : Char) (n : Nat) (s : List Char) :
    ((List.replicate n s).flatten).count x = n * s.count x := by
  induction n with
  | zero => simp
  | succ n ih =>
    rw [List.replicate_succ, List.flatten_cons, List.count_append, ih]
    ring

lemma fixTernary_balance (l : List Char) :
    countChar '?' (fixTernaryOperator l) ≤ countChar ':' (fixTernaryOperator l) := by
  unfold fixTernaryOperator
  by_cases h : countChar ':' l < countChar '?' l
  · rw [if_pos h]
    unfold countChar
    rw [List.count_append, List.count_append, count_flatten_replicate,
      count_flatten_replicate]
    have h1 : " : 1'b0".data.count '?' = 0 := by decide
    have h2 : " : 1'b0".data.count ':' = 1 := by decide
    rw [h1, h2]
    unfold countChar at h
    omega
  · rw [if_neg h]
    unfold countChar at h ⊢
    omega

/-! ### Ternary balance through the assign statement repair (claim C6) -/
theorem c6_helper_balance (s : String) :
    countCharStr '?' (fixAssignStatement s) ≤ countCharStr ':' (fixAssignStatement s) := by
  have hq : isPySpace '?' = false := by decide
  have hc : isPySpace ':' = false := by decide
  show countChar '?' (fixAssignStatementL s.data) ≤ countChar ':' (fixAssignStatementL s.data)
  unfold fixAssignStatementL
  by_cases h : stripL s.data = []
  · rw [if_pos h]
    have hz := countChar_eq_zero_of_all_ws hq (all_ws_of_stripL_nil h)
    omega
  · rw [if_neg h]
    simp only []
    set f3 := fixTernaryOperator (subLtEq (fixComplexTernaryL s.data)) with hf3
    set f4 := if !endsWithL ";".data (stripL f3) then rstripL f3 ++ ";".data else f3 with hf4
    have hbal : countChar '?' f3 ≤ countChar ':' f3 := fixTernary_balance _
    have h4 : ∀ x : Char, isPySpace x = false → ¬ x = ';' →
        countChar x f4 = countChar x f3 := by
      intro x hx hxs
      rw [hf4]
      by_cases hsemi : (!endsWithL ";".data (stripL f3)) = true
      · rw [if_pos hsemi]
        unfold countChar
        rw [List.count_append]
        have hr := countChar_rstrip hx f3
        unfold countChar at hr
        rw [hr]
        have hzero : List.count x ";".data = 0 := by
          show List.count x [';'] = 0
          rw [count_cons_eq, List.count_nil, if_neg (fun hh => hxs hh.symm)]
        rw [hzero]
        omega
      · rw [if_neg hsemi]
    
    have chainq :
        countChar '?' (subEqEq (subAroundChar ':' (subAroundChar '?' (subAroundChar '='
          (collapseWs f4))))) = countChar '?' f4 := by
      rw [countChar_subEqEq '?' hq (by decide),
        countChar_subAroundChar ':' '?' hq,
        countChar_subAroundChar '?' '?' hq,
        countChar_subAroundChar '=' '?' hq,
        countChar_collapseWs hq]
    have chainc :
        countChar ':' (subEqEq (subAroundChar ':' (subAroundChar '?' (subAroundChar '='
          (collapseWs f4))))) = countChar ':' f4 := by
      rw [countChar_subEqEq ':' hc (by decide),
        countChar_subAroundChar ':' ':' hc,
        countChar_subAroundChar '?' ':' hc,
        countChar_subAroundChar '=' ':' hc,
        countChar_collapseWs hc]
    rw [chainq, chainc, h4 '?' hq (by decide), h4 ':' hc (by decide)]
    exact hbal

/-! ### Empty-case classification as a declarative criterion (claim C3) -/
lemma emptyLineOk_iff (lines : List String) (j : Nat) :
    emptyLineOk lines j = true ↔
      (j < lines.length →
        pyStrip (lines.getD j "") = "" ∨
        strStarts "//" (pyStrip (lines.getD j "")) = true ∨
        strStarts "default:" (pyStrip (lines.getD j "")) = true ∨
        braceLabelMatch (pyStrip (lines.getD j "")) = true ∨
        (strContains "=" (pyStrip (lines.getD j "")) = false ∧
          ∀ kw ∈ (["begin", "if", "for", "while"] : List String),
            strContains kw (pyStrip (lines.getD j "")) = false)) := by
  unfold emptyLineOk
  by_cases hl : lines.length ≤ j
  · rw [if_pos hl]
    constructor
    · intro _ hj
      omega
    · intro _
      rfl
  · rw [if_neg hl]
    rw [imp_iff_right (Nat.not_le.mp hl)]
    set lc := pyStrip (lines.getD j "") with hlc
    by_cases c1 : (decide (lc = "") || strStarts "//" lc) = true
    · rw [if_pos c1]
      rcases Bool.or_eq_true_iff.mp c1 with h | h
      · simp [of_decide_eq_true h]
      · simp [h]
    · rw [if_neg c1]
      have c1' : ¬ lc = "" ∧ strStarts "//" lc = false := by
        have h := Bool.or_eq_false_iff.mp (Bool.eq_false_iff.mpr c1)
        exact ⟨of_decide_eq_false h.1, h.2⟩
      by_cases c2 : (strStarts "default:" lc || braceLabelMatch lc) = true
      · rw [if_pos c2]
        rcases Bool.or_eq_true_iff.mp c2 with h | h
        · simp [h]
        · simp [h]
      · rw [if_neg c2]
        have c2' := Bool.or_eq_false_iff.mp (Bool.eq_false_iff.mpr c2)
        rw [Bool.not_eq_true']
        constructor
        · intro hb
          have hff := Bool.or_eq_false_iff.mp hb
          refine Or.inr (Or.inr (Or.inr (Or.inr ⟨hff.1, ?_⟩)))
          intro kw hkw
          have hany := hff.2
          rw [List.any_eq_false] at hany
          exact Bool.eq_false_iff.mpr (hany kw hkw)
        · intro hd
          rcases hd with h | h | h | h | ⟨h5, h6⟩
          · exact absurd h c1'.1
          · rw [c1'.2] at h
            exact absurd h (by decide)
          · rw [c2'.1] at h
            exact absurd h (by decide)
          · rw [c2'.2] at h
            exact absurd h (by decide)
          · rw [Bool.or_eq_false_iff]
            refine ⟨h5, ?_⟩
            rw [List.any_eq_false]
            intro kw hkw hc
            rw [h6 kw hkw] at hc
            exact absurd hc (by decide)

lemma isEmptyGo_iff (lines : List String) :
    ∀ (n i : Nat), isEmptyGo lines i n = true ↔
      ∀ j, i ≤ j → j < i + n → emptyLineOk lines j = true := by
  intro n
  induction n with
  | zero =>
    intro i
    constructor
    · intro _ j h1 h2
      omega
    · intro _
      rfl
  | succ n ih =>
    intro i
    rw [show isEmptyGo lines i (n + 1) = (emptyLineOk lines i && isEmptyGo lines (i + 1) n)
      from rfl]
    rw [Bool.and_eq_true, ih (i + 1)]
    constructor
    · rintro ⟨h1, h2⟩ j hj1 hj2
      rcases Nat.eq_or_lt_of_le hj1 with rfl | hlt
      · exact h1
      · exact h2 j hlt (by omega)
    · intro hall
      exact ⟨hall i le_rfl (by omega), fun j hj1 hj2 => hall j (by omega) (by omega)⟩

theorem c3_helper_iff (lines : List String) (s e : Nat) :
    isEmptyCaseStructure lines s e = true ↔ EmptyCaseDecl lines s e := by
  unfold isEmptyCaseStructure EmptyCaseDecl
  rw [isEmptyGo_iff]
  constructor
  · intro h i h1 h2 h3
    exact (emptyLineOk_iff lines i).mp (h i h1 (by omega)) h3
  · intro h j hj1 hj2
    rw [emptyLineOk_iff]
    intro hj3
    exact h j hj1 (by omega) hj3

lemma getIndentST_all_ws (line : String) :
    ∀ c ∈ (getIndentST line).data, isPySpace c = true := by
  intro c hc
  have h := List.mem_takeWhile_imp hc
  rcases Bool.or_eq_true_iff.mp h with h1 | h1 <;>
    simp [isPySpace, of_decide_eq_true h1]

lemma pyStrip_ws_append {ind : String} (rest : String)
    (hind : ∀ c ∈ ind.data, isPySpace c = true) :
    pyStrip (ind ++ rest) = pyStrip rest := by
  show ({ data := stripL (ind ++ rest).data } : String) = { data := stripL rest.data }
  rw [show (ind ++ rest).data = ind.data ++ rest.data from rfl]
  unfold stripL lstripL
  rw [dropWhile_append_of_all hind]

lemma isEndcaseCloseLine_ws_endcase {ind : String}
    (hind : ∀ c ∈ ind.data, isPySpace c = true) :
    isEndcaseCloseLine (ind ++ "endcase") = true := by
  unfold isEndcaseCloseLine
  rw [pyStrip_ws_append _ hind]
  decide

lemma isCaseOpenLine_ws_endcase {ind : String}
    (hind : ∀ c ∈ ind.data, isPySpace c = true) :
    isCaseOpenLine (ind ++ "endcase") = false := by
  unfold isCaseOpenLine
  rw [pyStrip_ws_append _ hind]
  decide

lemma stackDebts_cons (c : CaseCtx) (st : List CaseCtx) :
    stackDebts (c :: st) = stackDebts st + (if c.foundEndcase then 0 else 1) := by
  unfold stackDebts
  by_cases h : c.foundEndcase = true
  · simp [List.filter_cons, h]
  · have h' : c.foundEndcase = false := Bool.eq_false_iff.mpr h
    simp [List.filter_cons, h']

lemma checkMissing_spec (li : String) :
    ∀ st : List CaseCtx, WsStack st →
      stackDebts st =
        stackDebts (checkMissingEndcases li st).2 + (checkMissingEndcases li st).1.length ∧
      WsStack (checkMissingEndcases li st).2 ∧
      ∀ x ∈ (checkMissingEndcases li st).1, ∀ ch ∈ x.data, isPySpace ch = true := by
  intro st
  induction st with
  | nil =>
    intro _
    refine ⟨rfl, ?_, ?_⟩
    · intro c hc
      exact absurd hc (List.not_mem_nil c)
    · intro x hx
      exact absurd hx (List.not_mem_nil x)
  | cons top rest ih =>
    intro hws
    have hwrest : WsStack rest := fun c hc => hws c (List.mem_cons_of_mem top hc)
    have hwtop : ∀ ch ∈ top.indent.data, isPySpace ch = true :=
      hws top (List.mem_cons_self top rest)
    rw [show checkMissingEndcases li (top :: rest) =
      (if top.foundEndcase = true then ([], top :: rest)
       else if li.data.length ≤ top.indent.data.length then
         ((top.indent :: (checkMissingEndcases li rest).1, (checkMissingEndcases li rest).2))
       else ([], top :: rest)) from ?_]
    · by_cases h1 : top.foundEndcase = true
      · rw [if_pos h1]
        refine ⟨?_, hws, fun x hx => absurd hx (List.not_mem_nil x)⟩
        simp [stackDebts_cons, h1]
      · rw [if_neg h1]
        have h1' : top.foundEndcase = false := Bool.eq_false_iff.mpr h1
        by_cases h2 : li.data.length ≤ top.indent.data.length
        · rw [if_pos h2]
          obtain ⟨ha, hb, hc⟩ := ih hwrest
          refine ⟨?_, hb, ?_⟩
          · rw [stackDebts_cons, h1']
            simp only [List.length_cons, Bool.false_eq_true, if_false]
            omega
          · intro x hx
            rcases List.mem_cons.mp hx with rfl | hx'
            · exact hwtop
            · exact hc x hx'
        · rw [if_neg h2]
          refine ⟨rfl, hws, fun x hx => absurd hx (List.not_mem_nil x)⟩
    · by_cases h1 : top.foundEndcase = true
      · simp [checkMissingEndcases, h1]
      · have h1' : top.foundEndcase = false := Bool.eq_false_iff.mpr h1
        by_cases h2 : li.data.length ≤ top.indent.data.length
        · simp [checkMissingEndcases, h1', h2]
        · simp [checkMissingEndcases, h1', h2]

/-! ### Case/endcase counting invariant (claim C5) -/
lemma drainStack_counts : ∀ st : List CaseCtx, WsStack st →
    countCaseOpens (drainStack st).2 = 0 ∧ countEndcloses (drainStack st).2 = stackDebts st := by
  intro st
  induction st with
  | nil => intro _; exact ⟨rfl, rfl⟩
  | cons c rest ih =>
    intro hws
    have hrest : WsStack rest := fun x hx => hws x (List.mem_cons_of_mem c hx)
    obtain ⟨h1, h2⟩ := ih hrest
    have hwc : ∀ ch ∈ c.indent.data, isPySpace ch = true :=
      hws c (List.mem_cons_self c rest)
    rcases hdr : drainStack rest with ⟨n, ls⟩
    rw [hdr] at h1 h2
    by_cases hf : c.foundEndcase = true
    · have heq : drainStack (c :: rest) = (n, ls) := by
        simp only [drainStack, hdr, hf, if_true]
      rw [heq, stackDebts_cons, hf]
      dsimp only at h1 h2 ⊢
      refine ⟨h1, ?_⟩
      rw [h2]
      simp
    · have hf' : c.foundEndcase = false := Bool.eq_false_iff.mpr hf
      have heq : drainStack (c :: rest) = (n + 1, (c.indent ++ "endcase") :: ls) := by
        simp only [drainStack, hdr, hf', Bool.false_eq_true, if_false]
      rw [heq, stackDebts_cons, hf']
      dsimp only at h1 h2 ⊢
      simp only [countCaseOpens, countEndcloses] at h1 h2 ⊢
      rw [List.countP_cons, List.countP_cons]
      rw [isCaseOpenLine_ws_endcase hwc, isEndcaseCloseLine_ws_endcase hwc]
      simp only [Bool.false_eq_true, if_false, if_true]
      omega

lemma stackDebts_popTop (st : List CaseCtx) :
    stackDebts st ≤ stackDebts (popTop st) + 1 := by
  cases st with
  | nil => exact Nat.zero_le 1
  | cons c rest =>
    rw [show popTop (c :: rest) = rest from rfl, stackDebts_cons]
    by_cases h : c.foundEndcase = true <;> simp [h]

lemma wsStack_popTop {st : List CaseCtx} (h : WsStack st) : WsStack (popTop st) := by
  cases st with
  | nil => exact h
  | cons c rest => exact fun x hx => h x (List.mem_cons_of_mem c hx)

lemma fixMEGo_counts : ∀ (ls : List String) (idx : Nat) (st : List CaseCtx), WsStack st →
    countCaseOpens (fixMEGo idx st ls).2 + stackDebts st ≤
      countEndcloses (fixMEGo idx st ls).2 := by
  intro ls
  induction ls with
  | nil =>
    intro idx st hws
    obtain ⟨h1, h2⟩ := drainStack_counts st hws
    rw [show fixMEGo idx st [] = drainStack st from rfl]
    omega
  | cons line rest ih =>
    intro idx st hws
    by_cases hco : caseOpenMatch (pyStrip line) = true
    · rcases hrec : fixMEGo (idx + 1) (⟨idx, getIndentST line, false⟩ :: st) rest with ⟨n, out⟩
      have heq : fixMEGo idx st (line :: rest) = (n, line :: out) := by
        simp only [fixMEGo, hco, if_true, hrec]
      rw [heq]
      have hpush : WsStack (⟨idx, getIndentST line, false⟩ :: st) := by
        intro c hc
        rcases List.mem_cons.mp hc with rfl | hc'
        · exact getIndentST_all_ws line
        · exact hws c hc'
      have hih := ih (idx + 1) _ hpush
      rw [hrec, stackDebts_cons] at hih
      dsimp only at hih
      unfold countCaseOpens countEndcloses at hih ⊢
      rw [List.countP_cons, List.countP_cons]
      have hline : isCaseOpenLine line = true := hco
      rw [hline]
      simp only [Bool.false_eq_true, if_false, if_true] at hih ⊢
      by_cases hen : isEndcaseCloseLine line = true
      · rw [hen]
        simp only [if_true]
        omega
      · rw [Bool.eq_false_iff.mpr hen]
        simp only [Bool.false_eq_true, if_false]
        omega
    · have hco' : caseOpenMatch (pyStrip line) = false := Bool.eq_false_iff.mpr hco
      by_cases hen : isEndcaseLine (pyStrip line) = true
      · rcases hrec : fixMEGo (idx + 1) (popTop st) rest with ⟨n, out⟩
        have heq : fixMEGo idx st (line :: rest) = (n, line :: out) := by
          simp only [fixMEGo, hco', Bool.false_eq_true, if_false, hen, if_true, hrec]
        rw [heq]
        have hih := ih (idx + 1) (popTop st) (wsStack_popTop hws)
        rw [hrec] at hih
        dsimp only at hih
        have hpop := stackDebts_popTop st
        unfold countCaseOpens countEndcloses at hih ⊢
        rw [List.countP_cons, List.countP_cons]
        have hlo : isCaseOpenLine line = false := hco'
        have hle : isEndcaseCloseLine line = true := hen
        rw [hlo, hle]
        simp only [Bool.false_eq_true, if_false, if_true]
        omega
      · have hen' : isEndcaseLine (pyStrip line) = false := Bool.eq_false_iff.mpr hen
        by_cases hchk : (shouldCheckForMissingEndcase (pyStrip line) && !st.isEmpty) = true
        · rcases hcm : checkMissingEndcases (getIndentST line) st with ⟨ins, st'⟩
          rcases hrec : fixMEGo (idx + 1) st' rest with ⟨n, out⟩
          have heq : fixMEGo idx st (line :: rest) =
              (ins.length + n, ins.map (· ++ "endcase") ++ line :: out) := by
            simp only [fixMEGo, hco', hen', Bool.false_eq_true, if_false, hchk, if_true,
              hcm, hrec]
          rw [heq]
          obtain ⟨ha, hb, hc⟩ := checkMissing_spec (getIndentST line) st hws
          rw [hcm] at ha hb hc
          dsimp only at ha hb hc
          have hih := ih (idx + 1) st' hb
          rw [hrec] at hih
          dsimp only at hih
          unfold countCaseOpens countEndcloses at hih ⊢
          rw [List.countP_append, List.countP_append, List.countP_cons, List.countP_cons]
          have hinsEnd : (ins.map (· ++ "endcase")).countP isEndcaseCloseLine =
              (ins.map (· ++ "endcase")).length := by
            rw [List.countP_eq_length]
            intro a hamem
            obtain ⟨x, hx, rfl⟩ := List.mem_map.mp hamem
            exact isEndcaseCloseLine_ws_endcase (hc x hx)
          have hinsCase : (ins.map (· ++ "endcase")).countP isCaseOpenLine = 0 := by
            rw [List.countP_eq_zero]
            intro a hamem
            obtain ⟨x, hx, rfl⟩ := List.mem_map.mp hamem
            rw [isCaseOpenLine_ws_endcase (hc x hx)]
            exact Bool.false_ne_true
          rw [hinsEnd, hinsCase, List.length_map]
          have hlo : isCaseOpenLine line = false := hco'
          have hle : isEndcaseCloseLine line = false := hen'
          rw [hlo, hle]
          simp only [Bool.false_eq_true, if_false]
          omega
        · have hchk' : (shouldCheckForMissingEndcase (pyStrip line) && !st.isEmpty) = false :=
            Bool.eq_false_iff.mpr hchk
          rcases hrec : fixMEGo (idx + 1) st rest with ⟨n, out⟩
          have heq : fixMEGo idx st (line :: rest) = (n, line :: out) := by
            simp only [fixMEGo, hco', hen', hchk', Bool.false_eq_true, if_false, hrec]
          rw [heq]
          have hih := ih (idx + 1) st hws
          rw [hrec] at hih
          dsimp only at hih
          unfold countCaseOpens countEndcloses at hih ⊢
          rw [List.countP_cons, List.countP_cons]
          have hlo : isCaseOpenLine line = false := hco'
          have hle : isEndcaseCloseLine line = false := hen'
          rw [hlo, hle]
          simp only [Bool.false_eq_true, if_false]
          omega

theorem c5_helper_le (lines : List String) :
    countCaseOpens (fixCaseStatements lines).2.2 ≤
      countEndcloses (fixCaseStatements lines).2.2 := by
  have heq : (fixCaseStatements lines).2.2 =
      (fixMEGo 0 [] (removeEmptyCaseBlocks lines).2).2 := by
    unfold fixCaseStatements fixMissingEndcase
    rcases removeEmptyCaseBlocks lines with ⟨r, cl⟩
    dsimp only
  rw [heq]
  have h := fixMEGo_counts (removeEmptyCaseBlocks lines).2 0 []
    (fun c hc => absurd hc (List.not_mem_nil c))
  have hz : stackDebts ([] : List CaseCtx) = 0 := rfl
  omega

/-! ### Order preservation in the Case pass (claim C5) -/

lemma fixMEGo_sublist : ∀ (ls : List String) (idx : Nat) (st : List CaseCtx),
    List.Sublist ls (fixMEGo idx st ls).2 := by
  intro ls
  induction ls with
  | nil => intro idx st; exact List.nil_sublist _
  | cons line rest ih =>
    intro idx st
    by_cases hco : caseOpenMatch (pyStrip line) = true
    · rcases hrec : fixMEGo (idx + 1) (⟨idx, getIndentST line, false⟩ :: st) rest with ⟨n, out⟩
      have heq : fixMEGo idx st (line :: rest) = (n, line :: out) := by
        simp only [fixMEGo, hco, if_true, hrec]
      rw [heq]
      have h := ih (idx + 1) (⟨idx, getIndentST line, false⟩ :: st)
      rw [hrec] at h
      exact List.Sublist.cons₂ line h
    · have hco' : caseOpenMatch (pyStrip line) = false := Bool.eq_false_iff.mpr hco
      by_cases hen : isEndcaseLine (pyStrip line) = true
      · rcases hrec : fixMEGo (idx + 1) (popTop st) rest with ⟨n, out⟩
        have heq : fixMEGo idx st (line :: rest) = (n, line :: out) := by
          simp only [fixMEGo, hco', Bool.false_eq_true, if_false, hen, if_true, hrec]
        rw [heq]
        have h := ih (idx + 1) (popTop st)
        rw [hrec] at h
        exact List.Sublist.cons₂ line h
      · have hen' : isEndcaseLine (pyStrip line) = false := Bool.eq_false_iff.mpr hen
        by_cases hchk : (shouldCheckForMissingEndcase (pyStrip line) && !st.isEmpty) = true
        · rcases hcm : checkMissingEndcases (getIndentST line) st with ⟨ins, st'⟩
          rcases hrec : fixMEGo (idx + 1) st' rest with ⟨n, out⟩
          have heq : fixMEGo idx st (line :: rest) =
              (ins.length + n, ins.map (· ++ "endcase") ++ line :: out) := by
            simp only [fixMEGo, hco', hen', Bool.false_eq_true, if_false, hchk, if_true,
              hcm, hrec]
          rw [heq]
          have h := ih (idx + 1) st'
          rw [hrec] at h
          exact List.Sublist.trans (List.Sublist.cons₂ line h)
            (List.sublist_append_right (ins.map (· ++ "endcase")) (line :: out))
        · have hchk' : (shouldCheckForMissingEndcase (pyStrip line) && !st.isEmpty) = false :=
            Bool.eq_false_iff.mpr hchk
          rcases hrec : fixMEGo (idx + 1) st rest with ⟨n, out⟩
          have heq : fixMEGo idx st (line :: rest) = (n, line :: out) := by
            simp only [fixMEGo, hco', hen', hchk', Bool.false_eq_true, if_false, hrec]
          rw [heq]
          have h := ih (idx + 1) st
          rw [hrec] at h
          exact List.Sublist.cons₂ line h

lemma deleteRange_sublist (l : List String) (s e : Nat) (h : s ≤ e) :
    List.Sublist (deleteRange l s e) l := by
  unfold deleteRange
  conv_rhs => rw [← List.take_append_drop s l]
  refine List.Sublist.append_left ?_ (l.take s)
  have hdd : l.drop (e + 1) = (l.drop s).drop (e + 1 - s) := by
    rw [List.drop_drop]
    congr 1
    omega
  rw [hdd]
  exact List.drop_sublist _ _

lemma identifyGo_lt (lines : List String) :
    ∀ (fuel i : Nat) (r : Nat × Nat), r ∈ identifyGo lines fuel i → r.1 < r.2 := by
  intro fuel
  induction fuel with
  | zero => intro i r hr; exact absurd hr (List.not_mem_nil r)
  | succ fuel ih =>
    intro i r hr
    rw [identifyGo] at hr
    by_cases hlen : lines.length ≤ i
    · rw [if_pos hlen] at hr
      exact absurd hr (List.not_mem_nil r)
    · rw [if_neg hlen] at hr
      by_cases hcase : caseOpenMatch (pyStrip (lines.getD i "")) = true
      · rw [if_pos hcase] at hr
        rcases hfe : findEndcaseFrom lines (i + 1) with _ | e
        · rw [hfe] at hr
          exact ih (i + 1) r hr
        · rw [hfe] at hr
          rcases List.mem_cons.mp hr with rfl | hr'
          · obtain ⟨k, _, hk2⟩ := Option.map_eq_some'.mp hfe
            show i < e
            omega
          · exact ih (e + 1) r hr'
      · rw [if_neg hcase] at hr
        exact ih (i + 1) r hr

lemma insertDesc_mem {x y : Nat × Nat} :
    ∀ l : List (Nat × Nat), x ∈ insertDescByStart y l → x = y ∨ x ∈ l := by
  intro l
  induction l with
  | nil =>
    intro hx
    rcases List.mem_cons.mp hx with rfl | hx'
    · exact Or.inl rfl
    · exact absurd hx' (List.not_mem_nil x)
  | cons a rest ih =>
    intro hx
    rw [insertDescByStart] at hx
    by_cases hc : a.1 < y.1
    · rw [if_pos hc] at hx
      rcases List.mem_cons.mp hx with rfl | hx'
      · exact Or.inl rfl
      · exact Or.inr hx'
    · rw [if_neg hc] at hx
      rcases List.mem_cons.mp hx with rfl | hx'
      · exact Or.inr (List.mem_cons_self x rest)
      · rcases ih hx' with h | h
        · exact Or.inl h
        · exact Or.inr (List.mem_cons_of_mem a h)

lemma sortDesc_mem {x : Nat × Nat} (l : List (Nat × Nat)) (hx : x ∈ sortDescByStart l) :
    x ∈ l := by
  unfold sortDescByStart at hx
  suffices h : ∀ (l acc : List (Nat × Nat)),
      x ∈ l.foldl (fun acc y => insertDescByStart y acc) acc → x ∈ l ∨ x ∈ acc by
    rcases h l [] hx with h1 | h1
    · exact h1
    · exact absurd h1 (List.not_mem_nil x)
  intro l
  induction l with
  | nil => intro acc h; exact Or.inr h
  | cons a rest ih =>
    intro acc h
    rcases ih (insertDescByStart a acc) h with h1 | h1
    · exact Or.inl (List.mem_cons_of_mem a h1)
    · rcases insertDesc_mem acc h1 with rfl | h2
      · exact Or.inl (List.mem_cons_self x rest)
      · exact Or.inr h2

lemma foldl_deleteRange_sublist :
    ∀ (ranges : List (Nat × Nat)) (l : List String),
      (∀ r ∈ ranges, r.1 < r.2) →
      List.Sublist (ranges.foldl (fun acc r => deleteRange acc r.1 r.2) l) l := by
  intro ranges
  induction ranges with
  | nil => intro l _; exact List.Sublist.refl l
  | cons r rest ih =>
    intro l hall
    rw [List.foldl_cons]
    exact List.Sublist.trans
      (ih (deleteRange l r.1 r.2) fun q hq => hall q (List.mem_cons_of_mem r hq))
      (deleteRange_sublist l r.1 r.2 (Nat.le_of_lt (hall r (List.mem_cons_self r rest))))

lemma removeEmpty_sublist (lines : List String) :
    List.Sublist (removeEmptyCaseBlocks lines).2 lines := by
  unfold removeEmptyCaseBlocks
  by_cases h : (identifyCaseStructures lines |>.filter fun r =>
      isEmptyCaseStructure lines r.1 r.2).isEmpty = true
  · rw [if_pos h]
  · rw [if_neg h]
    refine foldl_deleteRange_sublist _ lines ?_
    intro r hr
    have hmem := sortDesc_mem _ hr
    have hmem2 := List.mem_of_mem_filter hmem
    exact identifyGo_lt lines lines.length 0 r hmem2

/-! ### Claim theorems -/

/-- Claim C1 (code_bug): the input `["always()\n"]` is a fixed point of the
full six-step pipeline (the output equals the input), yet the pipeline
reports one fix rather than zero: the Always pass counts the `always()` line
as fixed although its textual replacement cannot touch it. -/
theorem c1_pipeline_reports_fix_on_fixed_point :
    (fixAllSyntaxErrors ["always()\n"]).outLines = ["always()\n"] ∧
    (fixAllSyntaxErrors ["always()\n"]).totalFixes = 1 := by
  constructor <;> decide

/-- Claim C2 (code_bug): the Always pass detects the line `always()` as an
incomplete header and counts it as fixed, but returns it unchanged instead of
replacing it with `always @(*)`, because the repair uses
`line.replace("always ()", ...)`, whose pattern contains a space. -/
theorem c2_always_paren_counted_but_unchanged :
    fixAlwaysBlocks 0 ["always()\n"] = (1, ["always()\n"]) := by
  decide

/-- Claim C3 counterexample: the region `case(x)` / `default: y = 0;` /
`endcase` is classified empty and deleted wholesale by the Case pass, even
though its sole interior line carries an assignment (`=`), contradicting the
claimed "bare label carrying no assignment" criterion. -/
theorem c3_counterexample :
    (fixCaseStatements ["case(x)\n", "default: y = 0;\n", "endcase\n"]).2.2 = [] ∧
    strContains "=" (pyStrip "default: y = 0;\n") = true := by
  constructor <;> decide

/-- Claim C3 (amended): `_is_empty_case_structure` classifies a region empty
iff every in-range interior line is blank, a comment, a `default:` line, a
`{...}:` group label, or carries neither `=` nor any of the
begin/if/for/while substrings. -/
theorem c3_empty_case_classification (lines : List String) (s e : Nat) :
    isEmptyCaseStructure lines s e = true ↔ EmptyCaseDecl lines s e :=
  c3_helper_iff lines s e

/-- Claim C4 counterexample: on `["else\n", "  y = 1;\n"]` the unpaired bare
`else` line is dropped but its following block line survives in the output,
contradicting "dropped together with its following block" (which would leave
the output empty here). -/
theorem c4_counterexample :
    (fixIfElseStatements ["else\n", "  y = 1;\n"]).2 = ["  y = 1;\n"] := by
  decide

/-- Claim C4 (amended): the If-Else rewrite phase implements exactly the
per-line policy: a paired `else`/`else if` passes through unchanged, an
unpaired `else if` is rewritten by the whitespace-tolerant textual
replacement of the `else if (` opener with `if (`, and an unpaired bare
`else` line is dropped alone, its following block remaining. -/
theorem c4_rewrite_policy (lines : List String) :
    (fixIfElseStatements lines).2 =
      ifElseRewriteDescribed (analyzeIfElsePairing lines) lines := by
  unfold fixIfElseStatements ifElseRewriteDescribed List.enum
  rw [rewriteGo_filterMap]
  simp

/-- Claim C5 counterexample: on the input `["endcase\n"]` the Case pass
leaves a stray `endcase` with no `case` opening, so the two counts differ. -/
theorem c5_counterexample :
    countCaseOpens (fixCaseStatements ["endcase\n"]).2.2 = 0 ∧
    countEndcloses (fixCaseStatements ["endcase\n"]).2.2 = 1 := by
  constructor <;> decide

/-- Claim C5 (amended): for every input, the Case pass emits at least as many
`endcase` closings as `case` openings, and no case content lines are
reordered: the lines surviving the empty-region pruning form a subsequence of
the input and of the final output. -/
theorem c5_endcase_at_least_case (lines : List String) :
    (countCaseOpens (fixCaseStatements lines).2.2 ≤
      countEndcloses (fixCaseStatements lines).2.2) ∧
    List.Sublist (removeEmptyCaseBlocks lines).2 lines ∧
    List.Sublist (removeEmptyCaseBlocks lines).2 (fixCaseStatements lines).2.2 := by
  refine ⟨c5_helper_le lines, removeEmpty_sublist lines, ?_⟩
  have heq : (fixCaseStatements lines).2.2 =
      (fixMEGo 0 [] (removeEmptyCaseBlocks lines).2).2 := by
    unfold fixCaseStatements fixMissingEndcase
    rcases removeEmptyCaseBlocks lines with ⟨r, cl⟩
    dsimp only
  rw [heq]
  exact fixMEGo_sublist _ 0 []

/-- Claim C6 counterexample: the claimed equality of `?` and `:` counts fails
in both directions across the Assign pass's emission paths. Through the
statement-repair path the pass emits `assign a = b : c;` with zero `?` and one
`:` (so equality must weaken to `count ? ≤ count :`), and through the
incomplete-assignment path it emits `x ? ? 1'b1 : 1'b0;` with two `?` and one
`:` (so not even that inequality holds for every emitted statement; it has to
be restricted to the statement-repair path). -/
theorem c6_counterexample :
    ((fixAssignStatements ["assign a = b : c\n"]).2.2 = ["assign a = b : c;"] ∧
      countCharStr '?' "assign a = b : c;" < countCharStr ':' "assign a = b : c;") ∧
    ((fixAssignStatements ["x ? ?\n"]).2.2 = ["x ? ? 1'b1 : 1'b0;"] ∧
      countCharStr ':' "x ? ? 1'b1 : 1'b0;" <
        countCharStr '?' "x ? ? 1'b1 : 1'b0;") :=
  ⟨⟨by decide, by decide⟩, by decide, by decide⟩

/-- Claim C6 (amended): every statement emitted through the Assign pass's
statement-repair path `_fix_assign_statement` (applied to each collected
assign statement and to each piece of a split multi-assign line) has at most
as many `?` characters as `:` characters; the bound is specific to that path:
the incomplete-assignment completion path can emit a statement with more `?`
than `:`, as input `x ? ?` yields `x ? ? 1'b1 : 1'b0;` with two `?` and one
`:`. -/
theorem c6_ternary_balance_le :
    (∀ s : String,
      countCharStr '?' (fixAssignStatement s) ≤
        countCharStr ':' (fixAssignStatement s)) ∧
    ((fixAssignStatements ["x ? ?\n"]).2.2 = ["x ? ? 1'b1 : 1'b0;"] ∧
      countCharStr ':' "x ? ? 1'b1 : 1'b0;" <
        countCharStr '?' "x ? ? 1'b1 : 1'b0;") :=
  ⟨c6_helper_balance, by decide, by decide⟩

/-- Claim C7 (code_bug): running the pipeline on an orphan labeled block that
indexes `[I]` makes the Generate pass emit `genvar I;`, after which the final
cleanup inserts a second declaration `genvar i;` immediately before it — two
`genvar` declarations for one generated loop instead of exactly one. -/
theorem c7_duplicate_genvar_after_cleanup :
    (fixAllSyntaxErrors ["begin: blk\n", "  x[I]\n", "  end\n"]).outLines =
      ["genvar i;\n", "genvar I;\n", "generate\n",
       "  for (I = 0; I < 8; I = I + 1) begin\n",
       "  begin: blk\n", "    x[I]\n", "  end\n", "endgenerate\n", "  end\n"] ∧
    ((fixAllSyntaxErrors ["begin: blk\n", "  x[I]\n", "  end\n"]).outLines.countP
      fun l => strStarts "genvar" (pyStrip l)) = 2 := by
  constructor <;> decide

/-- Claim C8 counterexample: on the four-line ternary input the Assign pass
does not return the claimed line ending in a newline character. -/
theorem c8_counterexample :
    (fixAssignStatements ["assign a =\n", "  (sel) ?\n", "  1'b1 :\n", "  1'b0\n"]).2.2 ≠
      ["assign a = (sel) ? 1'b1 : 1'b0;\n"] := by
  decide

/-- Claim C8 (amended): on the four-line ternary input the Assign pass
returns exactly one output line, `assign a = (sel) ? 1'b1 : 1'b0;` with no
trailing newline. -/
theorem c8_merged_output_no_newline :
    (fixAssignStatements ["assign a =\n", "  (sel) ?\n", "  1'b1 :\n", "  1'b0\n"]).2.2 =
      ["assign a = (sel) ? 1'b1 : 1'b0;"] := by
  decide

/-- Claim C9 counterexample: an `AlwaysBlockPatcher` instance that first
repaired `["always\n"]` reports one fixed block after repairing the
fix-free input `["wire w;\n"]`, while a fresh instance reports zero — the
statistics after repairing B depend on the previous run on A. -/
theorem c9_counterexample :
    (fixAlwaysBlocks (fixAlwaysBlocks 0 ["always\n"]).1 ["wire w;\n"]).1 = 1 ∧
    (fixAlwaysBlocks 0 ["wire w;\n"]).1 = 0 := by
  constructor <;> decide

/-- Claim C9 (amended): the Always and Generate passes do not reinitialize
their statistics counters — the incoming counter value is added to the
per-run delta — while their emitted lines are independent of that incoming
value.  (The Assign, Case and If-Else passes reset their counters on entry,
as their definitions record.) -/
theorem c9_counter_accumulation (cnt o g : Nat) (lines : List String) :
    (fixAlwaysBlocks cnt lines).1 = cnt + (fixAlwaysBlocks 0 lines).1 ∧
    (fixAlwaysBlocks cnt lines).2 = (fixAlwaysBlocks 0 lines).2 ∧
    (fixGenerateBlocks o g lines).1 =
      (o + (fixGenerateBlocks 0 0 lines).1.1, g + (fixGenerateBlocks 0 0 lines).1.2) ∧
    (fixGenerateBlocks o g lines).2 = (fixGenerateBlocks 0 0 lines).2 := by
  obtain ⟨h1, h2⟩ := fixAlwaysGo_acc lines lines 0 cnt
  obtain ⟨h3, h4⟩ := fixGenGo_acc lines lines.length 0 o g
  exact ⟨h1, h2, h3, h4⟩

/-- Claim C10 (confirmed): no line whose trimmed content is one of the
sixteen single-character operator strings survives the orchestrator's final
cleanup — every such input line, including a lone brace or colon, is removed
from the output. -/
theorem c10_cleanup_removes_operator_lines (lines : List String) (l : String)
    (hl : l ∈ conservativeCleanup lines) :
    pyStrip l ∉ orphanSingletons := by
  intro hmem
  have h1 : isObviousOrphanOperator (pyStrip l) = false :=
    cleanupGo_not_orphan lines [] (by simp) l hl
  have h2 : isObviousOrphanOperator (pyStrip l) = true := by
    simp only [orphanSingletons, List.mem_cons, List.not_mem_nil, or_false] at hmem
    rcases hmem with h|h|h|h|h|h|h|h|h|h|h|h|h|h|h|h <;> rw [h] <;> decide
  rw [h1] at h2
  exact absurd h2 (by decide)

/-- Witness for C10: the cleanup of `["{\n", "  x = 1;\n"]` keeps the
assignment line, whose trimmed content is not a single-operator string. -/
theorem c10_witness :
    ("  x = 1;\n" ∈ conservativeCleanup ["\x7b\n", "  x = 1;\n"]) ∧
      pyStrip "  x = 1;\n" ∉ orphanSingletons :=
  ⟨by decide,
   c10_cleanup_removes_operator_lines ["\x7b\n", "  x = 1;\n"] "  x = 1;\n" (by decide)⟩
